import Mathlib

/-!
Verification of the batch file-upsert utility (`main.go`).

The Go program talks to a remote Git-hosting API through a client value
(`github.Client`).  We embed the two core functions,
`upsertMultipleFilesSafe` and `createRepo`, as Lean functions that are
parameterized over an abstract client: a record of operations, each of
which consumes and produces an explicit client state `σ`.  Two client
instances are provided:

* `scriptClient`: responses are read from a pre-recorded script, and every
  call is appended to a log.  Quantifying over scripts covers every
  possible behaviour of the remote side, and the log makes "which API
  calls were issued" observable.
* `idealClient`: a deterministic model of a correctly-functioning remote
  (content-addressed blobs, trees layered over a base tree, a single
  branch ref), used for end-to-end properties such as idempotence.

Go maps (`files map[string]string`, `result map[string]string`) are
modelled as association lists with unique keys; `setKV` is Go's
`m[k] = v`.
-/

set_option autoImplicit false

namespace GitUpsert

/-- Association-list update, modelling Go's `m[k] = v`: replaces the value
at an existing key in place, otherwise appends the binding. -/
def setKV (m : List (String × String)) (k v : String) : List (String × String) :=
  match m with
  | [] => [(k, v)]
  | (k1, v1) :: rest => if k1 = k then (k, v) :: rest else (k1, v1) :: setKV rest k v

/-- The per-file outcome map (`result` in the Go code). -/
abbrev Outcome := List (String × String)

/-- A Git tree entry as constructed by the Go code:
`github.TreeEntry{Path, Mode, Type, SHA}`. -/
structure TreeEntry where
  path : String
  mode : String
  type : String
  sha : String
deriving DecidableEq, Repr

/-- Result of `client.Git.GetRef`: success with the ref's SHA, a
`*github.ErrorResponse` with an HTTP status code, or an error of some
other dynamic type (the type assertion in the Go code fails). -/
inductive RefResp where
  | ok (sha : String)
  | ghErr (status : Nat)
  | otherErr
deriving DecidableEq, Repr

/-- Result of `client.Repositories.GetCommit`: an error, or a commit
where `baseNil` models `baseCommit == nil`, `commitNil` models
`baseCommit.Commit == nil`, and `treeSha` models
`baseCommit.Commit.Tree.GetSHA()` (which is `""` for a nil tree). -/
inductive GetCommitResp where
  | ok (baseNil commitNil : Bool) (treeSha : String)
  | err
deriving DecidableEq, Repr

/-- Result of `(*RepositoryContent).GetContent()`. -/
inductive DecodeRes where
  | ok (content : String)
  | err
deriving DecidableEq, Repr

/-- Result of `client.Repositories.GetContents`: `current` models the
`fileContent` pointer (with its decode result when non-nil), `respStatus`
models `resp` (`none` = nil response), `isErr` models `err != nil`. -/
structure GetContentsResp where
  current : Option DecodeRes
  respStatus : Option Nat
  isErr : Bool
deriving DecidableEq, Repr

/-- Result of blob / tree / commit creation: the new object's SHA, or an
error. -/
inductive ShaResp where
  | ok (sha : String)
  | err
deriving DecidableEq, Repr

/-- Result of `CreateRef` / `UpdateRef`. -/
inductive UnitResp where
  | ok
  | err
deriving DecidableEq, Repr

/-- The argument of `client.Git.CreateCommit`: message, tree SHA and
parent SHAs. -/
structure CommitData where
  message : String
  treeSha : String
  parents : List String
deriving DecidableEq, Repr

/-- The argument of `client.Repositories.Create` (`Name`, `Private`,
`AutoInit`, `Description`). -/
structure RepoSpec where
  name : String
  isPrivate : Bool
  autoInit : Bool
  description : String
deriving DecidableEq, Repr

/-- One remote API call, with its arguments, as issued by the embedded
code.  Used by `scriptClient` to log the calls a run performs. -/
inductive Call where
  | getRef (ref : String)
  | getCommit (sha : String)
  | getContents (path ref : String)
  | createBlob (content : String)
  | createTree (baseTree : String) (entries : List TreeEntry)
  | createCommit (data : CommitData)
  | createRef (ref sha : String)
  | updateRef (ref sha : String) (force : Bool)
  | getRepository (owner name : String)
  | createRepository (org : String) (spec : RepoSpec)
deriving DecidableEq, Repr

/-- The abstract remote client used by `upsertMultipleFilesSafe`.  Each
operation threads an explicit state `σ`.  The `owner`/`repo` arguments of
the Go methods are fixed configuration for a whole call and are omitted
from the operations (they are recorded by the repository-level client
`RepoClient` where they matter). -/
structure Client (σ : Type) where
  getRef : String → σ → RefResp × σ
  getCommit : String → σ → GetCommitResp × σ
  getContents : String → String → σ → GetContentsResp × σ
  createBlob : String → σ → ShaResp × σ
  createTree : String → List TreeEntry → σ → ShaResp × σ
  createCommit : CommitData → σ → ShaResp × σ
  createRef : String → String → σ → UnitResp × σ
  updateRef : String → String → Bool → σ → UnitResp × σ

/-- The abstract client for `createRepo`: `get` returns
(`resp` status code or `none` for a nil response, `err != nil`);
`create` takes the organisation string and the repository spec. -/
structure RepoClient (σ : Type) where
  get : String → String → σ → (Option Nat × Bool) × σ
  create : String → RepoSpec → σ → UnitResp × σ

/-- The distinct error returns of `upsertMultipleFilesSafe`, one per
`return result, fmt.Errorf(...)` site in the Go code. -/
inductive UpsertErr where
  | createBlobInit
  | createTreeInit
  | createCommitInit
  | createRefInit
  | getRefFail
  | getCommitFail
  | nilBaseCommit
  | recheckGetRef
  | concurrentModification
  | createTreeFail
  | nilBaseCommitLate
  | createCommitFail
  | updateRefFail
deriving DecidableEq, Repr

variable {σ : Type}

/-- The bootstrap loop of `upsertMultipleFilesSafe` (lines 30–48): for
each file mark it `created`, create a blob, and append a tree entry; a
blob failure marks the file `error` and aborts immediately. -/
def bootstrapLoop (c : Client σ) :
    List (String × String) → Outcome → List TreeEntry → σ →
    (Outcome × Option (List TreeEntry)) × σ
  | [], result, entries, s => ((result, some entries), s)
  | (path, content) :: rest, result, entries, s =>
    let result1 := setKV result path "created"
    let bs := c.createBlob content s
    match bs.1 with
    | .ok sha =>
        bootstrapLoop c rest result1
          (entries ++ [{ path := path, mode := "100644", type := "blob", sha := sha }]) bs.2
    | .err => ((setKV result1 path "error", none), bs.2)

/-- The classification step of the per-file update loop (lines 105–120):
decides, from the `GetContents` response, the new outcome map and whether
to fall through to blob creation (`write`) or move to the next path
(`stop`). -/
inductive StepRes where
  | stop (result : Outcome)
  | write (result : Outcome)

/-- Classify one `GetContents` response exactly as the `if`/`else if`
chain at lines 106–120 of the Go code does, starting from the outcome map
in which the path was just set to `"error"`. -/
def classifyContents (gcr : GetContentsResp) (result0 : Outcome)
    (path newContent : String) : StepRes :=
  if gcr.respStatus = some 404 then
    .write (setKV result0 path "created")
  else
    match gcr.isErr, gcr.current with
    | false, some d =>
      match d with
      | .err => .stop result0
      | .ok decoded =>
        if decoded = newContent then .stop (setKV result0 path "skipped")
        else .write (setKV result0 path "updated")
    | true, _ => .stop result0
    | false, none => .write result0

/-- One iteration of the per-file update loop (lines 102–136): set the
pessimistic `"error"` outcome, read the current content, classify, and on
the write path create a blob and append a tree entry (a blob failure
keeps the current outcome and appends nothing). -/
def processFile (c : Client σ) (branch path newContent : String)
    (result : Outcome) (entries : List TreeEntry) (s : σ) :
    (Outcome × List TreeEntry) × σ :=
  let result0 := setKV result path "error"
  let gs := c.getContents path branch s
  match classifyContents gs.1 result0 path newContent with
  | .stop r => ((r, entries), gs.2)
  | .write r =>
    let bs := c.createBlob newContent gs.2
    match bs.1 with
    | .err => ((r, entries), bs.2)
    | .ok sha =>
      ((r, entries ++ [{ path := path, mode := "100644", type := "blob", sha := sha }]), bs.2)

/-- The full per-file update loop (lines 100–136). -/
def updateLoop (c : Client σ) (branch : String) :
    List (String × String) → Outcome → List TreeEntry → σ →
    (Outcome × List TreeEntry) × σ
  | [], result, entries, s => ((result, entries), s)
  | (path, content) :: rest, result, entries, s =>
    let r := processFile c branch path content result entries s
    updateLoop c branch rest r.1.1 r.1.2 r.2

/-- `upsertMultipleFilesSafe` (lines 15–182 of `main.go`), translated
statement by statement.  Returns the outcome map together with `none` for
a nil error or `some e` identifying the `return result, fmt.Errorf` site
taken. -/
def upsertMultipleFilesSafe (c : Client σ) (branch : String)
    (files : List (String × String)) (commitMessage : String) (s : σ) :
    (Outcome × Option UpsertErr) × σ :=
  let result : Outcome := []
  let rs := c.getRef ("refs/heads/" ++ branch) s
  match rs.1 with
  | .ghErr code =>
    if code = 404 ∨ code = 409 then
      let ls := bootstrapLoop c files result [] rs.2
      match ls.1.2 with
      | none => ((ls.1.1, some .createBlobInit), ls.2)
      | some entries =>
        let ts := c.createTree "" entries ls.2
        match ts.1 with
        | .err => ((ls.1.1, some .createTreeInit), ts.2)
        | .ok treeSha =>
          let cs := c.createCommit { message := "Initial commit", treeSha := treeSha, parents := [] } ts.2
          match cs.1 with
          | .err => ((ls.1.1, some .createCommitInit), cs.2)
          | .ok newSha =>
            let crs := c.createRef ("refs/heads/" ++ branch) newSha cs.2
            match crs.1 with
            | .err => ((ls.1.1, some .createRefInit), crs.2)
            | .ok => ((ls.1.1, none), crs.2)
    else ((result, some .getRefFail), rs.2)
  | .otherErr => ((result, some .getRefFail), rs.2)
  | .ok originalHeadSHA =>
    let gcs := c.getCommit originalHeadSHA rs.2
    match gcs.1 with
    | .err => ((result, some .getCommitFail), gcs.2)
    | .ok baseNil commitNil baseTreeSHA =>
      if baseNil || commitNil then ((result, some .nilBaseCommit), gcs.2)
      else
        let ls := updateLoop c branch files result [] gcs.2
        if ls.1.2 = [] then ((ls.1.1, none), ls.2)
        else
          let rcs := c.getRef ("refs/heads/" ++ branch) ls.2
          match rcs.1 with
          | .ghErr _ => ((ls.1.1, some .recheckGetRef), rcs.2)
          | .otherErr => ((ls.1.1, some .recheckGetRef), rcs.2)
          | .ok recheckSha =>
            if recheckSha ≠ originalHeadSHA then
              ((ls.1.1, some .concurrentModification), rcs.2)
            else
              let nts := c.createTree baseTreeSHA ls.1.2 rcs.2
              match nts.1 with
              | .err => ((ls.1.1, some .createTreeFail), nts.2)
              | .ok newTreeSha =>
                if commitNil then ((ls.1.1, some .nilBaseCommitLate), nts.2)
                else
                  let ncs := c.createCommit
                    { message := commitMessage, treeSha := newTreeSha,
                      parents := [originalHeadSHA] } nts.2
                  match ncs.1 with
                  | .err => ((ls.1.1, some .createCommitFail), ncs.2)
                  | .ok commitSha =>
                    let urs := c.updateRef ("refs/heads/" ++ branch) commitSha false ncs.2
                    match urs.1 with
                    | .err => ((ls.1.1, some .updateRefFail), urs.2)
                    | .ok => ((ls.1.1, none), urs.2)

/-- The distinct error returns of `createRepo`. -/
inductive CreateRepoErr where
  | checkFailed
  | createFailed
deriving DecidableEq, Repr

/-- `createRepo` (lines 184–212 of `main.go`): look the repository up; on
a nil error succeed as a no-op; on an error whose response is non-nil
with a status other than 404, fail; otherwise create the repository under
the empty organisation with the hardcoded settings. -/
def createRepo (c : RepoClient σ) (owner repoName : String) (s : σ) :
    Option CreateRepoErr × σ :=
  let gs := c.get owner repoName s
  let doCreate : σ → Option CreateRepoErr × σ := fun s2 =>
    let cs := c.create ""
      { name := repoName, isPrivate := false, autoInit := true,
        description := "Auto-created with Go script" } s2
    match cs.1 with
    | .ok => (none, cs.2)
    | .err => (some .createFailed, cs.2)
  if gs.1.2 = false then (none, gs.2)
  else
    match gs.1.1 with
    | some code => if code = 404 then doCreate gs.2 else (some .checkFailed, gs.2)
    | none => doCreate gs.2

/-! ## The scripted client

Responses are consumed from per-operation lists; when a list runs out a
default "other error" response is used.  Every call is appended to a log,
so theorems can speak about which remote calls a run issued. -/

/-- Pop the next scripted response, with a default. -/
def popResp {α : Type} : List α → α → α × List α
  | [], d => (d, [])
  | x :: xs, _ => (x, xs)

/-- A pre-recorded script of remote responses for one run. -/
structure Script where
  getRefResps : List RefResp
  getCommitResps : List GetCommitResp
  getContentsResps : List GetContentsResp
  createBlobResps : List ShaResp
  createTreeResps : List ShaResp
  createCommitResps : List ShaResp
  createRefResps : List UnitResp
  updateRefResps : List UnitResp
deriving Repr

/-- State of the scripted client: the remaining script plus the log of
calls issued so far. -/
abbrev ScriptState := Script × List Call

/-- The scripted client instance. -/
def scriptClient : Client ScriptState where
  getRef := fun ref s =>
    let p := popResp s.1.getRefResps .otherErr
    (p.1, ({ s.1 with getRefResps := p.2 }, s.2 ++ [.getRef ref]))
  getCommit := fun sha s =>
    let p := popResp s.1.getCommitResps .err
    (p.1, ({ s.1 with getCommitResps := p.2 }, s.2 ++ [.getCommit sha]))
  getContents := fun path ref s =>
    let p := popResp s.1.getContentsResps { current := none, respStatus := none, isErr := true }
    (p.1, ({ s.1 with getContentsResps := p.2 }, s.2 ++ [.getContents path ref]))
  createBlob := fun content s =>
    let p := popResp s.1.createBlobResps .err
    (p.1, ({ s.1 with createBlobResps := p.2 }, s.2 ++ [.createBlob content]))
  createTree := fun base entries s =>
    let p := popResp s.1.createTreeResps .err
    (p.1, ({ s.1 with createTreeResps := p.2 }, s.2 ++ [.createTree base entries]))
  createCommit := fun data s =>
    let p := popResp s.1.createCommitResps .err
    (p.1, ({ s.1 with createCommitResps := p.2 }, s.2 ++ [.createCommit data]))
  createRef := fun ref sha s =>
    let p := popResp s.1.createRefResps .err
    (p.1, ({ s.1 with createRefResps := p.2 }, s.2 ++ [.createRef ref sha]))
  updateRef := fun ref sha force s =>
    let p := popResp s.1.updateRefResps .err
    (p.1, ({ s.1 with updateRefResps := p.2 }, s.2 ++ [.updateRef ref sha force]))

/-- Run `upsertMultipleFilesSafe` against a script, starting from an
empty call log. -/
def runUpsert (script : Script) (branch : String)
    (files : List (String × String)) (commitMessage : String) :
    (Outcome × Option UpsertErr) × ScriptState :=
  upsertMultipleFilesSafe scriptClient branch files commitMessage (script, [])

/-- A script for the repository-level client. -/
structure RepoScript where
  getResps : List (Option Nat × Bool)
  createResps : List UnitResp
deriving Repr

/-- State of the scripted repository client. -/
abbrev RepoScriptState := RepoScript × List Call

/-- The scripted repository client instance. -/
def repoScriptClient : RepoClient RepoScriptState where
  get := fun owner name s =>
    let p := popResp s.1.getResps (none, true)
    (p.1, ({ s.1 with getResps := p.2 }, s.2 ++ [.getRepository owner name]))
  create := fun org spec s =>
    let p := popResp s.1.createResps .err
    (p.1, ({ s.1 with createResps := p.2 }, s.2 ++ [.createRepository org spec]))

/-- Run `createRepo` against a script, starting from an empty call log. -/
def runCreateRepo (script : RepoScript) (owner repoName : String) :
    Option CreateRepoErr × RepoScriptState :=
  createRepo repoScriptClient owner repoName (script, [])

/-! ## The ideal client

A deterministic model of a correctly-functioning remote.  A blob's SHA is
its content (content addressing); trees are association lists from path
to blob SHA; the single branch ref stores both its head commit SHA and
the fully-resolved tree at the head, which keeps `getContents` a simple
lookup. -/

/-- Layer a list of tree entries over a base tree, later entries
overriding earlier bindings for the same path. -/
def applyEntries (base : List (String × String)) : List TreeEntry → List (String × String)
  | [] => base
  | e :: rest => applyEntries (setKV base e.path e.sha) rest

/-- State of the ideal remote: the branch (trees at head, `none` when the
branch is absent), the head SHA, the created tree and commit objects, and
a counter for fresh SHAs. -/
structure IdealState where
  branchTree : Option (List (String × String))
  headSha : String
  trees : List (String × List (String × String))
  commits : List (String × String)
  counter : Nat

/-- The ideal client instance. -/
def idealClient : Client IdealState where
  getRef := fun _ s =>
    match s.branchTree with
    | none => (.ghErr 404, s)
    | some _ => (.ok s.headSha, s)
  getCommit := fun sha s =>
    match s.commits.lookup sha with
    | none => (.err, s)
    | some treeSha => (.ok false false treeSha, s)
  getContents := fun path _ s =>
    match s.branchTree with
    | none => ({ current := none, respStatus := some 404, isErr := true }, s)
    | some t =>
      match t.lookup path with
      | none => ({ current := none, respStatus := some 404, isErr := true }, s)
      | some content =>
        ({ current := some (.ok content), respStatus := some 200, isErr := false }, s)
  createBlob := fun content s => (.ok content, s)
  createTree := fun base entries s =>
    let baseMap := if base = "" then [] else (s.trees.lookup base).getD []
    let newMap := applyEntries baseMap entries
    let sha := "tree-" ++ toString s.counter
    (.ok sha, { s with trees := (sha, newMap) :: s.trees, counter := s.counter + 1 })
  createCommit := fun data s =>
    let sha := "commit-" ++ toString s.counter
    (.ok sha, { s with commits := (sha, data.treeSha) :: s.commits, counter := s.counter + 1 })
  createRef := fun _ sha s =>
    let t := ((s.commits.lookup sha).bind (fun ts => s.trees.lookup ts)).getD []
    (.ok, { s with branchTree := some t, headSha := sha })
  updateRef := fun _ sha _ s =>
    let t := ((s.commits.lookup sha).bind (fun ts => s.trees.lookup ts)).getD []
    (.ok, { s with branchTree := some t, headSha := sha })

/-- Initial ideal state for a given branch state: `none` for an absent
branch, `some t` for a branch whose head tree holds exactly `t`. -/
def mkIdeal : Option (List (String × String)) → IdealState
  | none =>
    { branchTree := none, headSha := "", trees := [], commits := [], counter := 0 }
  | some t =>
    { branchTree := some t, headSha := "head-0", trees := [("roottree-0", t)],
      commits := [("head-0", "roottree-0")], counter := 0 }

/-! ## Characterization helpers

Closed forms used to state what the loops compute; they are proof-side
descriptions, compared against the embedded code by the lemmas below. -/

/-- The tree entry the code builds for a path and a blob SHA. -/
def mkEntry (p sha : String) : TreeEntry :=
  { path := p, mode := "100644", type := "blob", sha := sha }

/-- The status the update loop assigns to a path under the ideal client,
when the branch tree is `t`. -/
def statusOf (t : List (String × String)) (p c : String) : String :=
  match t.lookup p with
  | none => "created"
  | some cur => if cur = c then "skipped" else "updated"

/-- The outcome map the update loop computes under the ideal client. -/
def outcomeOf (t : List (String × String)) :
    List (String × String) → Outcome → Outcome
  | [], result => result
  | (p, c) :: rest, result => outcomeOf t rest (setKV result p (statusOf t p c))

/-- The tree entries the update loop collects under the ideal client: one
per file whose desired content differs from the branch tree. -/
def entriesOf (t : List (String × String)) (files : List (String × String)) :
    List TreeEntry :=
  (files.filter fun pc => !decide (t.lookup pc.1 = some pc.2)).map
    (fun pc => mkEntry pc.1 pc.2)

/-- The outcome map the bootstrap loop computes when every blob creation
succeeds. -/
def foldCreated : List (String × String) → Outcome → Outcome
  | [], result => result
  | (p, _) :: rest, result => foldCreated rest (setKV result p "created")

/-- Calls that mutate the remote object graph or refs. -/
def isMutationCall : Call → Bool
  | .createTree _ _ => true
  | .createCommit _ => true
  | .createRef _ _ => true
  | .updateRef _ _ _ => true
  | _ => false

/-- The calls the per-file loops may issue: content reads and blob
creations. -/
def isReadOrBlobCall : Call → Bool
  | .getContents _ _ => true
  | .createBlob _ => true
  | _ => false

/-! ## Lemmas about `setKV` and association-list lookup -/

theorem lookup_pair_cons (q k1 v1 : String) (rest : List (String × String)) :
    List.lookup q ((k1, v1) :: rest) = if q = k1 then some v1 else List.lookup q rest := by
  by_cases h : q = k1
  · subst h
    simp [List.lookup]
  · have hb : (q == k1) = false := by simpa using h
    simp [List.lookup, hb, h]

theorem lookup_setKV_self (m : List (String × String)) (k v : String) :
    (setKV m k v).lookup k = some v := by
  induction m with
  | nil => simp [setKV, lookup_pair_cons]
  | cons kv rest ih =>
    obtain ⟨k1, v1⟩ := kv
    by_cases h : k1 = k
    · simp [setKV, h, lookup_pair_cons, ih]
    · simp [setKV, h, Ne.symm h, lookup_pair_cons, ih]

theorem lookup_setKV_ne (m : List (String × String)) (k v q : String) (h : q ≠ k) :
    (setKV m k v).lookup q = m.lookup q := by
  induction m with
  | nil => simp [setKV, lookup_pair_cons, h]
  | cons kv rest ih =>
    obtain ⟨k1, v1⟩ := kv
    by_cases h1 : k1 = k
    · subst h1
      simp [setKV, lookup_pair_cons, h]
    · by_cases h2 : q = k1 <;> simp [setKV, h1, lookup_pair_cons, h2, ih]

theorem setKV_setKV (m : List (String × String)) (k v w : String) :
    setKV (setKV m k v) k w = setKV m k w := by
  induction m with
  | nil => simp [setKV]
  | cons kv rest ih =>
    by_cases h : kv.1 = k <;> simp [setKV, h, ih]

theorem lookup_setKV_isSome (m : List (String × String)) (k v q : String)
    (h : (m.lookup q).isSome) : ((setKV m k v).lookup q).isSome := by
  by_cases hq : q = k
  · subst hq; simp [lookup_setKV_self]
  · rwa [lookup_setKV_ne m k v q hq]

theorem mem_keys_setKV (m : List (String × String)) (k v q : String) :
    q ∈ (setKV m k v).map Prod.fst ↔ q = k ∨ q ∈ m.map Prod.fst := by
  induction m with
  | nil => simp [setKV]
  | cons kv rest ih =>
    by_cases h1 : kv.1 = k
    · subst h1
      simp [setKV]
    · simp [setKV, h1, ih]
      tauto

theorem keys_setKV_nodup (m : List (String × String)) (k v : String)
    (h : (m.map Prod.fst).Nodup) : ((setKV m k v).map Prod.fst).Nodup := by
  induction m with
  | nil => simp [setKV]
  | cons kv rest ih =>
    simp only [List.map_cons, List.nodup_cons] at h
    by_cases h1 : kv.1 = k
    · subst h1
      simpa [setKV, List.nodup_cons] using h
    · simp only [setKV, h1, if_neg, List.map_cons, List.nodup_cons, ite_false]
      refine ⟨fun hc => ?_, ih h.2⟩
      rcases (mem_keys_setKV rest k v kv.1).mp hc with h4 | h4
      · exact h1 h4
      · exact h.1 h4

/-! ## Structural lemmas about runs against the scripted client

The scripted client only ever appends to the call log, so any run's
final log is the initial log followed by the run's own calls, and the
per-file loops only issue content reads and blob creations. -/

theorem scriptClient_getRef (ref : String) (s : ScriptState) :
    scriptClient.getRef ref s
      = ((popResp s.1.getRefResps RefResp.otherErr).1,
         ({ s.1 with getRefResps := (popResp s.1.getRefResps RefResp.otherErr).2 },
          s.2 ++ [Call.getRef ref])) := rfl

theorem scriptClient_getCommit (sha : String) (s : ScriptState) :
    scriptClient.getCommit sha s
      = ((popResp s.1.getCommitResps GetCommitResp.err).1,
         ({ s.1 with getCommitResps := (popResp s.1.getCommitResps GetCommitResp.err).2 },
          s.2 ++ [Call.getCommit sha])) := rfl

theorem scriptClient_getContents (path ref : String) (s : ScriptState) :
    scriptClient.getContents path ref s
      = ((popResp s.1.getContentsResps { current := none, respStatus := none, isErr := true }).1,
         ({ s.1 with getContentsResps :=
              (popResp s.1.getContentsResps { current := none, respStatus := none, isErr := true }).2 },
          s.2 ++ [Call.getContents path ref])) := rfl

theorem scriptClient_createBlob (content : String) (s : ScriptState) :
    scriptClient.createBlob content s
      = ((popResp s.1.createBlobResps ShaResp.err).1,
         ({ s.1 with createBlobResps := (popResp s.1.createBlobResps ShaResp.err).2 },
          s.2 ++ [Call.createBlob content])) := rfl

theorem scriptClient_createTree (base : String) (entries : List TreeEntry) (s : ScriptState) :
    scriptClient.createTree base entries s
      = ((popResp s.1.createTreeResps ShaResp.err).1,
         ({ s.1 with createTreeResps := (popResp s.1.createTreeResps ShaResp.err).2 },
          s.2 ++ [Call.createTree base entries])) := rfl

theorem scriptClient_createCommit (data : CommitData) (s : ScriptState) :
    scriptClient.createCommit data s
      = ((popResp s.1.createCommitResps ShaResp.err).1,
         ({ s.1 with createCommitResps := (popResp s.1.createCommitResps ShaResp.err).2 },
          s.2 ++ [Call.createCommit data])) := rfl

theorem scriptClient_createRef (ref sha : String) (s : ScriptState) :
    scriptClient.createRef ref sha s
      = ((popResp s.1.createRefResps UnitResp.err).1,
         ({ s.1 with createRefResps := (popResp s.1.createRefResps UnitResp.err).2 },
          s.2 ++ [Call.createRef ref sha])) := rfl

theorem scriptClient_updateRef (ref sha : String) (force : Bool) (s : ScriptState) :
    scriptClient.updateRef ref sha force s
      = ((popResp s.1.updateRefResps UnitResp.err).1,
         ({ s.1 with updateRefResps := (popResp s.1.updateRefResps UnitResp.err).2 },
          s.2 ++ [Call.updateRef ref sha force])) := rfl

theorem processFile_log_shift (branch p nc : String) (result : Outcome)
    (entries : List TreeEntry) (sc : Script) (l : List Call) :
    processFile scriptClient branch p nc result entries (sc, l)
      = ((processFile scriptClient branch p nc result entries (sc, [])).1,
         ((processFile scriptClient branch p nc result entries (sc, [])).2.1,
          l ++ (processFile scriptClient branch p nc result entries (sc, [])).2.2)) := by
  simp only [processFile, scriptClient]
  cases hcl : classifyContents
      (popResp sc.getContentsResps { current := none, respStatus := none, isErr := true }).1
      (setKV result p "error") p nc with
  | stop r => simp [hcl]
  | write r =>
    cases hb : (popResp sc.createBlobResps ShaResp.err).1 <;> simp [hcl, hb]

theorem processFile_calls (branch p nc : String) (result : Outcome)
    (entries : List TreeEntry) (sc : Script) :
    ∀ x ∈ (processFile scriptClient branch p nc result entries (sc, [])).2.2,
      isReadOrBlobCall x = true := by
  simp only [processFile, scriptClient]
  cases hcl : classifyContents
      (popResp sc.getContentsResps { current := none, respStatus := none, isErr := true }).1
      (setKV result p "error") p nc with
  | stop r => simp [hcl, isReadOrBlobCall]
  | write r =>
    cases hb : (popResp sc.createBlobResps ShaResp.err).1 <;>
      simp [hcl, hb, isReadOrBlobCall]

theorem processFile_script_shape (branch p nc : String) (result : Outcome)
    (entries : List TreeEntry) (sc : Script) (l : List Call) :
    ∃ g b, (processFile scriptClient branch p nc result entries (sc, l)).2.1
      = { sc with getContentsResps := g, createBlobResps := b } := by
  simp only [processFile, scriptClient]
  cases hcl : classifyContents
      (popResp sc.getContentsResps { current := none, respStatus := none, isErr := true }).1
      (setKV result p "error") p nc with
  | stop r =>
    simp only [hcl]
    exact ⟨_, sc.createBlobResps, rfl⟩
  | write r =>
    simp only [hcl]
    cases hb : (popResp sc.createBlobResps ShaResp.err).1 with
    | ok sha =>
      simp only [hb]
      exact ⟨_, _, rfl⟩
    | err =>
      simp only [hb]
      exact ⟨_, _, rfl⟩

theorem updateLoop_log_shift (branch : String) (files : List (String × String))
    (result : Outcome) (entries : List TreeEntry) (sc : Script) (l : List Call) :
    updateLoop scriptClient branch files result entries (sc, l)
      = ((updateLoop scriptClient branch files result entries (sc, [])).1,
         ((updateLoop scriptClient branch files result entries (sc, [])).2.1,
          l ++ (updateLoop scriptClient branch files result entries (sc, [])).2.2)) := by
  induction files generalizing result entries sc l with
  | nil => simp [updateLoop]
  | cons f rest ih =>
    obtain ⟨p, c⟩ := f
    simp only [updateLoop]
    rw [processFile_log_shift branch p c result entries sc l]
    rcases hpf : processFile scriptClient branch p c result entries (sc, []) with ⟨⟨r1, e1⟩, sc1, d1⟩
    obtain ⟨g1, b1, hshape⟩ := processFile_script_shape branch p c result entries sc []
    rw [hpf] at hshape
    simp only at hshape
    subst hshape
    simp only
    rw [ih r1 e1 _ (l ++ d1), ih r1 e1 _ d1]
    simp

theorem updateLoop_calls (branch : String) (files : List (String × String))
    (result : Outcome) (entries : List TreeEntry) (sc : Script) :
    ∀ x ∈ (updateLoop scriptClient branch files result entries (sc, [])).2.2,
      isReadOrBlobCall x = true := by
  induction files generalizing result entries sc with
  | nil => simp [updateLoop]
  | cons f rest ih =>
    obtain ⟨p, c⟩ := f
    simp only [updateLoop]
    rcases hpf : processFile scriptClient branch p c result entries (sc, []) with ⟨⟨r1, e1⟩, sc1, d1⟩
    obtain ⟨g1, b1, hshape⟩ := processFile_script_shape branch p c result entries sc []
    rw [hpf] at hshape
    simp only at hshape
    subst hshape
    simp only
    rw [updateLoop_log_shift]
    intro x hx
    simp only [List.mem_append] at hx
    rcases hx with hx | hx
    · have := processFile_calls branch p c result entries sc
      rw [hpf] at this
      exact this x hx
    · exact ih r1 e1 _ x hx

theorem updateLoop_script_shape (branch : String) (files : List (String × String))
    (result : Outcome) (entries : List TreeEntry) (sc : Script) (l : List Call) :
    ∃ g b, (updateLoop scriptClient branch files result entries (sc, l)).2.1
      = { sc with getContentsResps := g, createBlobResps := b } := by
  induction files generalizing result entries sc l with
  | nil => exact ⟨sc.getContentsResps, sc.createBlobResps, by simp [updateLoop]⟩
  | cons f rest ih =>
    obtain ⟨p, c⟩ := f
    simp only [updateLoop]
    rcases hpf : processFile scriptClient branch p c result entries (sc, l) with ⟨⟨r1, e1⟩, sc1, l1⟩
    obtain ⟨g1, b1, hshape⟩ := processFile_script_shape branch p c result entries sc l
    rw [hpf] at hshape
    simp only at hshape
    subst hshape
    simp only
    obtain ⟨g2, b2, h2⟩ := ih r1 e1 _ l1
    exact ⟨g2, b2, by rw [h2]⟩

theorem bootstrapLoop_log_shift (files : List (String × String))
    (result : Outcome) (entries : List TreeEntry) (sc : Script) (l : List Call) :
    bootstrapLoop scriptClient files result entries (sc, l)
      = ((bootstrapLoop scriptClient files result entries (sc, [])).1,
         ((bootstrapLoop scriptClient files result entries (sc, [])).2.1,
          l ++ (bootstrapLoop scriptClient files result entries (sc, [])).2.2)) := by
  induction files generalizing result entries sc l with
  | nil => simp [bootstrapLoop]
  | cons f rest ih =>
    obtain ⟨p, c⟩ := f
    simp only [bootstrapLoop, scriptClient_createBlob]
    cases hb : (popResp sc.createBlobResps ShaResp.err).1 with
    | ok sha =>
      simp only [hb, List.nil_append]
      rw [ih _ _ _ (l ++ [Call.createBlob c]), ih _ _ _ [Call.createBlob c]]
      simp
    | err => simp [hb]

theorem bootstrapLoop_calls (files : List (String × String))
    (result : Outcome) (entries : List TreeEntry) (sc : Script) :
    ∀ x ∈ (bootstrapLoop scriptClient files result entries (sc, [])).2.2,
      isReadOrBlobCall x = true := by
  induction files generalizing result entries sc with
  | nil => simp [bootstrapLoop]
  | cons f rest ih =>
    obtain ⟨p, c⟩ := f
    simp only [bootstrapLoop, scriptClient_createBlob]
    cases hb : (popResp sc.createBlobResps ShaResp.err).1 with
    | ok sha =>
      simp only [hb]
      rw [bootstrapLoop_log_shift]
      intro x hx
      simp only [List.mem_append, List.mem_singleton, List.mem_cons,
        List.not_mem_nil, or_false, false_or] at hx
      rcases hx with hx | hx
      · simp [hx, isReadOrBlobCall]
      · exact ih _ _ _ x hx
    | err => simp [hb, isReadOrBlobCall]

theorem bootstrapLoop_script_shape (files : List (String × String))
    (result : Outcome) (entries : List TreeEntry) (sc : Script) (l : List Call) :
    ∃ b, (bootstrapLoop scriptClient files result entries (sc, l)).2.1
      = { sc with createBlobResps := b } := by
  induction files generalizing result entries sc l with
  | nil => exact ⟨sc.createBlobResps, by simp [bootstrapLoop]⟩
  | cons f rest ih =>
    obtain ⟨p, c⟩ := f
    simp only [bootstrapLoop, scriptClient_createBlob]
    cases hb : (popResp sc.createBlobResps ShaResp.err).1 with
    | ok sha =>
      simp only [hb]
      obtain ⟨b2, h2⟩ := ih (setKV result p "created")
        (entries ++ [{ path := p, mode := "100644", type := "blob", sha := sha }])
        { sc with createBlobResps := (popResp sc.createBlobResps ShaResp.err).2 }
        (l ++ [Call.createBlob c])
      exact ⟨b2, by rw [h2]⟩
    | err =>
      simp only [hb]
      exact ⟨(popResp sc.createBlobResps ShaResp.err).2, rfl⟩

/-! ## Lemmas about runs against the ideal client -/

theorem keys_nodup_mem_inj {files : List (String × String)} {p a b : String}
    (hnd : (files.map Prod.fst).Nodup)
    (ha : (p, a) ∈ files) (hb : (p, b) ∈ files) : a = b := by
  induction files with
  | nil => cases ha
  | cons f rest ih =>
    obtain ⟨fp, fc⟩ := f
    simp only [List.map_cons, List.nodup_cons] at hnd
    rcases List.mem_cons.mp ha with ha1 | ha1 <;> rcases List.mem_cons.mp hb with hb1 | hb1
    · have h1 := ha1.trans hb1.symm
      injection h1 with h1a h1b
    · exfalso
      apply hnd.1
      have hp : fp = p := by
        injection ha1 with h1 h2
        exact h1.symm
      rw [hp]
      exact List.mem_map.mpr ⟨(p, b), hb1, rfl⟩
    · exfalso
      apply hnd.1
      have hp : fp = p := by
        injection hb1 with h1 h2
        exact h1.symm
      rw [hp]
      exact List.mem_map.mpr ⟨(p, a), ha1, rfl⟩
    · exact ih hnd.2 ha1 hb1

theorem applyEntries_lookup_not_mem (base : List (String × String))
    (es : List TreeEntry) (q : String) (h : q ∉ es.map TreeEntry.path) :
    (applyEntries base es).lookup q = base.lookup q := by
  induction es generalizing base with
  | nil => rfl
  | cons e rest ih =>
    simp only [List.map_cons, List.mem_cons, not_or] at h
    rw [applyEntries, ih _ h.2, lookup_setKV_ne _ _ _ _ h.1]

theorem applyEntries_lookup_mem (base : List (String × String))
    (es : List TreeEntry) (e : TreeEntry) (he : e ∈ es)
    (hnd : (es.map TreeEntry.path).Nodup) :
    (applyEntries base es).lookup e.path = some e.sha := by
  induction es generalizing base with
  | nil => cases he
  | cons e1 rest ih =>
    simp only [List.map_cons, List.nodup_cons] at hnd
    rcases List.mem_cons.mp he with he1 | he1
    · subst he1
      have h2 : (applyEntries (setKV base e.path e.sha) rest).lookup e.path = some e.sha := by
        rw [applyEntries_lookup_not_mem _ rest e.path hnd.1, lookup_setKV_self]
      exact h2
    · exact ih _ he1 hnd.2

theorem entriesOf_paths (t files : List (String × String)) :
    (entriesOf t files).map TreeEntry.path
      = ((files.filter fun pc => !decide (t.lookup pc.1 = some pc.2)).map Prod.fst) := by
  simp [entriesOf, mkEntry, List.map_map]

theorem entriesOf_paths_nodup (t files : List (String × String))
    (hnd : (files.map Prod.fst).Nodup) :
    ((entriesOf t files).map TreeEntry.path).Nodup := by
  rw [entriesOf_paths]
  exact hnd.sublist (List.Sublist.map Prod.fst (List.filter_sublist files))

theorem mem_entriesOf (t files : List (String × String)) (p c : String)
    (hmem : (p, c) ∈ files) (h : ¬ t.lookup p = some c) :
    mkEntry p c ∈ entriesOf t files := by
  refine List.mem_map.mpr ⟨(p, c), List.mem_filter.mpr ⟨hmem, ?_⟩, rfl⟩
  simpa using h

theorem not_mem_entriesOf_paths (t files : List (String × String)) (p c : String)
    (hnd : (files.map Prod.fst).Nodup)
    (hmem : (p, c) ∈ files) (h : t.lookup p = some c) :
    p ∉ (entriesOf t files).map TreeEntry.path := by
  rw [entriesOf_paths]
  intro hc
  obtain ⟨pc, hpc, hfst⟩ := List.mem_map.mp hc
  have hf := List.mem_filter.mp hpc
  obtain ⟨p1, c1⟩ := pc
  simp only at hfst
  subst hfst
  have : c1 = c := keys_nodup_mem_inj hnd hf.1 hmem
  subst this
  simp [h] at hf

theorem entriesOf_eq_nil (t files : List (String × String))
    (h : ∀ pc ∈ files, t.lookup pc.1 = some pc.2) : entriesOf t files = [] := by
  unfold entriesOf
  rw [List.filter_eq_nil_iff.mpr, List.map_nil]
  intro a ha
  simp [h a ha]

theorem entriesOf_nil_all (t files : List (String × String))
    (h : entriesOf t files = []) : ∀ pc ∈ files, t.lookup pc.1 = some pc.2 := by
  unfold entriesOf at h
  have := List.map_eq_nil_iff.mp h
  have h2 := List.filter_eq_nil_iff.mp this
  intro pc hpc
  have := h2 pc hpc
  simpa using this

theorem outcomeOf_lookup_not_mem (t files : List (String × String))
    (result : Outcome) (q : String) (h : q ∉ files.map Prod.fst) :
    (outcomeOf t files result).lookup q = result.lookup q := by
  induction files generalizing result with
  | nil => rfl
  | cons f rest ih =>
    obtain ⟨p, c⟩ := f
    simp only [List.map_cons, List.mem_cons, not_or] at h
    rw [outcomeOf, ih _ h.2, lookup_setKV_ne _ _ _ _ h.1]

theorem outcomeOf_lookup_mem (t files : List (String × String))
    (result : Outcome) (p c : String) (hmem : (p, c) ∈ files)
    (hnd : (files.map Prod.fst).Nodup) :
    (outcomeOf t files result).lookup p = some (statusOf t p c) := by
  induction files generalizing result with
  | nil => cases hmem
  | cons f rest ih =>
    obtain ⟨p1, c1⟩ := f
    simp only [List.map_cons, List.nodup_cons] at hnd
    rcases List.mem_cons.mp hmem with h1 | h1
    · rw [Prod.mk.injEq] at h1
      obtain ⟨hp, hc⟩ := h1
      subst hp
      subst hc
      have h2 : (outcomeOf t rest (setKV result p (statusOf t p c))).lookup p
          = some (statusOf t p c) := by
        rw [outcomeOf_lookup_not_mem _ _ _ _ hnd.1, lookup_setKV_self]
      exact h2
    · exact ih _ h1 hnd.2

theorem entriesOf_cons (t : List (String × String)) (p c : String)
    (rest : List (String × String)) :
    entriesOf t ((p, c) :: rest)
      = if t.lookup p = some c then entriesOf t rest
        else mkEntry p c :: entriesOf t rest := by
  unfold entriesOf
  rw [List.filter_cons]
  by_cases h : t.lookup p = some c <;> simp [h]

theorem processFile_ideal (branch p c : String) (result : Outcome)
    (entries : List TreeEntry) (s : IdealState) (t : List (String × String))
    (ht : s.branchTree = some t) :
    processFile idealClient branch p c result entries s
      = ((setKV result p (statusOf t p c),
          entries ++ (if t.lookup p = some c then [] else [mkEntry p c])), s) := by
  cases hl : t.lookup p with
  | none =>
    simp [processFile, idealClient, ht, hl, classifyContents, statusOf,
      setKV_setKV, mkEntry]
  | some cur =>
    by_cases hc : cur = c
    · subst hc
      simp [processFile, idealClient, ht, hl, classifyContents, statusOf,
        setKV_setKV]
    · simp [processFile, idealClient, ht, hl, classifyContents, statusOf,
        setKV_setKV, hc, mkEntry, Ne.symm hc]

theorem updateLoop_ideal (branch : String) (files : List (String × String))
    (result : Outcome) (entries : List TreeEntry) (s : IdealState)
    (t : List (String × String)) (ht : s.branchTree = some t) :
    updateLoop idealClient branch files result entries s
      = ((outcomeOf t files result, entries ++ entriesOf t files), s) := by
  induction files generalizing result entries with
  | nil => simp [updateLoop, outcomeOf, entriesOf]
  | cons f rest ih =>
    obtain ⟨p, c⟩ := f
    have hstep : updateLoop idealClient branch ((p, c) :: rest) result entries s
        = updateLoop idealClient branch rest
            (processFile idealClient branch p c result entries s).1.1
            (processFile idealClient branch p c result entries s).1.2
            (processFile idealClient branch p c result entries s).2 := rfl
    rw [hstep, processFile_ideal branch p c result entries s t ht]
    simp only
    rw [ih, entriesOf_cons]
    have hout : outcomeOf t ((p, c) :: rest) result
        = outcomeOf t rest (setKV result p (statusOf t p c)) := rfl
    rw [hout]
    by_cases hl : t.lookup p = some c <;> simp [hl]

theorem bootstrapLoop_ideal (files : List (String × String))
    (result : Outcome) (entries : List TreeEntry) (s : IdealState) :
    bootstrapLoop idealClient files result entries s
      = ((foldCreated files result,
          some (entries ++ files.map fun pc => mkEntry pc.1 pc.2)), s) := by
  induction files generalizing result entries with
  | nil => simp [bootstrapLoop, foldCreated]
  | cons f rest ih =>
    obtain ⟨p, c⟩ := f
    have hstep : bootstrapLoop idealClient ((p, c) :: rest) result entries s
        = bootstrapLoop idealClient rest (setKV result p "created")
            (entries ++ [{ path := p, mode := "100644", type := "blob", sha := c }]) s := rfl
    rw [hstep, ih]
    have hfold : foldCreated ((p, c) :: rest) result
        = foldCreated rest (setKV result p "created") := rfl
    rw [hfold]
    simp [mkEntry, List.append_assoc]

theorem statusOf_skipped (t : List (String × String)) (p c : String)
    (h : t.lookup p = some c) : statusOf t p c = "skipped" := by
  unfold statusOf
  rw [h]
  simp

theorem applyEntries_entriesOf_lookup (t files : List (String × String))
    (hnd : (files.map Prod.fst).Nodup) :
    ∀ pc ∈ files, (applyEntries t (entriesOf t files)).lookup pc.1 = some pc.2 := by
  intro pc hpc
  obtain ⟨p, c⟩ := pc
  by_cases hl : t.lookup p = some c
  · rw [applyEntries_lookup_not_mem _ _ _ (not_mem_entriesOf_paths t files p c hnd hpc hl)]
    exact hl
  · have hm := mem_entriesOf t files p c hpc hl
    have h2 := applyEntries_lookup_mem t (entriesOf t files) (mkEntry p c) hm
      (entriesOf_paths_nodup t files hnd)
    simpa [mkEntry] using h2

theorem applyEntries_map_lookup (base files : List (String × String))
    (hnd : (files.map Prod.fst).Nodup) :
    ∀ pc ∈ files,
      (applyEntries base (files.map fun pc => mkEntry pc.1 pc.2)).lookup pc.1 = some pc.2 := by
  intro pc hpc
  obtain ⟨p, c⟩ := pc
  have hm : mkEntry p c ∈ files.map (fun pc => mkEntry pc.1 pc.2) :=
    List.mem_map.mpr ⟨(p, c), hpc, rfl⟩
  have hpaths : ((files.map fun pc => mkEntry pc.1 pc.2).map TreeEntry.path)
      = files.map Prod.fst := by
    simp [List.map_map, mkEntry, Function.comp]
  have h2 := applyEntries_lookup_mem base _ (mkEntry p c) hm (by rw [hpaths]; exact hnd)
  simpa [mkEntry] using h2

theorem idealClient_getRef_some (r : String) (s : IdealState)
    (t : List (String × String)) (ht : s.branchTree = some t) :
    idealClient.getRef r s = (.ok s.headSha, s) := by
  simp [idealClient, ht]

theorem idealClient_getCommit_some (sha : String) (s : IdealState) (ts : String)
    (h : s.commits.lookup sha = some ts) :
    idealClient.getCommit sha s = (.ok false false ts, s) := by
  simp [idealClient, h]

/-- A run of the update path against the ideal client, on a state whose
branch already holds every desired content: it returns the loop's outcome
map, succeeds, and leaves the remote state untouched (no commit). -/
theorem upsert_ideal_good (branch cm : String) (files : List (String × String))
    (s : IdealState) (t1 : List (String × String)) (ts : String)
    (hbt : s.branchTree = some t1)
    (hcm : s.commits.lookup s.headSha = some ts)
    (hall : ∀ pc ∈ files, t1.lookup pc.1 = some pc.2) :
    upsertMultipleFilesSafe idealClient branch files cm s
      = ((outcomeOf t1 files [], none), s) := by
  have h1 := idealClient_getRef_some ("refs/heads/" ++ branch) s t1 hbt
  have h2 := idealClient_getCommit_some s.headSha s ts hcm
  have h3 := updateLoop_ideal branch files [] [] s t1 hbt
  have h4 : entriesOf t1 files = [] := entriesOf_eq_nil _ _ hall
  simp only [upsertMultipleFilesSafe, h1, h2, h3, h4]
  simp

/-- The full bootstrap run against the ideal client, from an absent
branch: every file `created`, one tree, one zero-parent commit, and the
branch ref created at it. -/
theorem upsert_ideal_bootstrap (branch cm : String) (files : List (String × String)) :
    upsertMultipleFilesSafe idealClient branch files cm (mkIdeal none)
      = ((foldCreated files [], none),
         { branchTree := some (applyEntries [] (files.map fun pc => mkEntry pc.1 pc.2)),
           headSha := "commit-1",
           trees := [("tree-0", applyEntries [] (files.map fun pc => mkEntry pc.1 pc.2))],
           commits := [("commit-1", "tree-0")],
           counter := 2 }) := by
  have e1 : idealClient.getRef ("refs/heads/" ++ branch) (mkIdeal none)
      = (RefResp.ghErr 404, mkIdeal none) := rfl
  have e3 : bootstrapLoop idealClient files [] [] (mkIdeal none)
      = ((foldCreated files [], some (files.map fun pc => mkEntry pc.1 pc.2)),
         mkIdeal none) := by
    rw [bootstrapLoop_ideal]
    simp
  have e4 : idealClient.createTree "" (files.map fun pc => mkEntry pc.1 pc.2) (mkIdeal none)
      = (ShaResp.ok "tree-0",
         { branchTree := none, headSha := "",
           trees := [("tree-0", applyEntries [] (files.map fun pc => mkEntry pc.1 pc.2))],
           commits := [], counter := 1 }) := rfl
  have e5 : idealClient.createCommit
      { message := "Initial commit", treeSha := "tree-0", parents := [] }
      { branchTree := none, headSha := "",
        trees := [("tree-0", applyEntries [] (files.map fun pc => mkEntry pc.1 pc.2))],
        commits := [], counter := 1 }
      = (ShaResp.ok "commit-1",
         { branchTree := none, headSha := "",
           trees := [("tree-0", applyEntries [] (files.map fun pc => mkEntry pc.1 pc.2))],
           commits := [("commit-1", "tree-0")], counter := 2 }) := by
    unfold idealClient
    simp
    rfl
  have e6 : idealClient.createRef ("refs/heads/" ++ branch) "commit-1"
      { branchTree := none, headSha := "",
        trees := [("tree-0", applyEntries [] (files.map fun pc => mkEntry pc.1 pc.2))],
        commits := [("commit-1", "tree-0")], counter := 2 }
      = (UnitResp.ok,
         { branchTree := some (applyEntries [] (files.map fun pc => mkEntry pc.1 pc.2)),
           headSha := "commit-1",
           trees := [("tree-0", applyEntries [] (files.map fun pc => mkEntry pc.1 pc.2))],
           commits := [("commit-1", "tree-0")], counter := 2 }) := by
    unfold idealClient
    simp [lookup_pair_cons]
  simp only [upsertMultipleFilesSafe, e1, e3, e4, e5, e6]
  simp

/-- The full update-path run against the ideal client from a fresh state
whose branch holds `t`, when at least one file needs writing: the layered
tree is created over the base tree, a one-parent commit is made and the
ref advanced to it. -/
theorem upsert_ideal_update (branch cm : String) (files t : List (String × String))
    (hne : entriesOf t files ≠ []) :
    upsertMultipleFilesSafe idealClient branch files cm (mkIdeal (some t))
      = ((outcomeOf t files [], none),
         { branchTree := some (applyEntries t (entriesOf t files)),
           headSha := "commit-1",
           trees := [("tree-0", applyEntries t (entriesOf t files)), ("roottree-0", t)],
           commits := [("commit-1", "tree-0"), ("head-0", "roottree-0")],
           counter := 2 }) := by
  have e1 : idealClient.getRef ("refs/heads/" ++ branch) (mkIdeal (some t))
      = (RefResp.ok "head-0", mkIdeal (some t)) := rfl
  have e2 : idealClient.getCommit "head-0" (mkIdeal (some t))
      = (GetCommitResp.ok false false "roottree-0", mkIdeal (some t)) := rfl
  have e3 : updateLoop idealClient branch files [] [] (mkIdeal (some t))
      = ((outcomeOf t files [], entriesOf t files), mkIdeal (some t)) := by
    rw [updateLoop_ideal branch files [] [] _ t rfl]
    simp
  have e4 : idealClient.createTree "roottree-0" (entriesOf t files) (mkIdeal (some t))
      = (ShaResp.ok "tree-0",
         { branchTree := some t, headSha := "head-0",
           trees := [("tree-0", applyEntries t (entriesOf t files)), ("roottree-0", t)],
           commits := [("head-0", "roottree-0")], counter := 1 }) := by
    unfold idealClient mkIdeal
    simp [lookup_pair_cons]
    rfl
  have e5 : idealClient.createCommit
      { message := cm, treeSha := "tree-0", parents := ["head-0"] }
      { branchTree := some t, headSha := "head-0",
        trees := [("tree-0", applyEntries t (entriesOf t files)), ("roottree-0", t)],
        commits := [("head-0", "roottree-0")], counter := 1 }
      = (ShaResp.ok "commit-1",
         { branchTree := some t, headSha := "head-0",
           trees := [("tree-0", applyEntries t (entriesOf t files)), ("roottree-0", t)],
           commits := [("commit-1", "tree-0"), ("head-0", "roottree-0")],
           counter := 2 }) := by
    unfold idealClient
    simp
    rfl
  have e6 : idealClient.updateRef ("refs/heads/" ++ branch) "commit-1" false
      { branchTree := some t, headSha := "head-0",
        trees := [("tree-0", applyEntries t (entriesOf t files)), ("roottree-0", t)],
        commits := [("commit-1", "tree-0"), ("head-0", "roottree-0")],
        counter := 2 }
      = (UnitResp.ok,
         { branchTree := some (applyEntries t (entriesOf t files)),
           headSha := "commit-1",
           trees := [("tree-0", applyEntries t (entriesOf t files)), ("roottree-0", t)],
           commits := [("commit-1", "tree-0"), ("head-0", "roottree-0")],
           counter := 2 }) := by
    unfold idealClient
    simp [lookup_pair_cons]
  simp only [upsertMultipleFilesSafe, e1, e2, e3, e4, e5, e6]
  simp [hne]

/-- C9: for every FileSet and every branch state (absent, or present with
any tree), running `upsertMultipleFilesSafe` against the ideal remote and
then running it again with the same FileSet on the resulting remote state
yields outcome `skipped` for every path on the second call, succeeds, and
creates no new commit: the second call leaves the remote state exactly as
the first call left it (in particular the commit store is unchanged). -/
theorem upsert_idempotent_second_all_skipped (branch cm : String)
    (files : List (String × String)) (bt : Option (List (String × String)))
    (hnd : (files.map Prod.fst).Nodup) :
    ∃ out1 s1 out2,
      upsertMultipleFilesSafe idealClient branch files cm (mkIdeal bt)
        = ((out1, none), s1) ∧
      upsertMultipleFilesSafe idealClient branch files cm s1
        = ((out2, none), s1) ∧
      (∀ p c, (p, c) ∈ files → out2.lookup p = some "skipped") := by
  have second : ∀ (s1 : IdealState) (t1 : List (String × String)) (ts : String),
      s1.branchTree = some t1 → s1.commits.lookup s1.headSha = some ts →
      (∀ pc ∈ files, t1.lookup pc.1 = some pc.2) →
      upsertMultipleFilesSafe idealClient branch files cm s1
          = ((outcomeOf t1 files [], none), s1) ∧
        ∀ p c, (p, c) ∈ files → (outcomeOf t1 files []).lookup p = some "skipped" := by
    intro s1 t1 ts hbt hcm hall
    refine ⟨upsert_ideal_good branch cm files s1 t1 ts hbt hcm hall, ?_⟩
    intro p c hmem
    rw [outcomeOf_lookup_mem t1 files [] p c hmem hnd,
      statusOf_skipped t1 p c (hall (p, c) hmem)]
  cases bt with
  | none =>
    have h1 := upsert_ideal_bootstrap branch cm files
    have hall := applyEntries_map_lookup [] files hnd
    obtain ⟨h2, h3⟩ := second
      { branchTree := some (applyEntries [] (files.map fun pc => mkEntry pc.1 pc.2)),
        headSha := "commit-1",
        trees := [("tree-0", applyEntries [] (files.map fun pc => mkEntry pc.1 pc.2))],
        commits := [("commit-1", "tree-0")], counter := 2 }
      (applyEntries [] (files.map fun pc => mkEntry pc.1 pc.2)) "tree-0" rfl rfl hall
    exact ⟨foldCreated files [], _, outcomeOf _ files [], h1, h2, h3⟩
  | some t =>
    by_cases hE : entriesOf t files = []
    · have hall := entriesOf_nil_all t files hE
      have h1 := upsert_ideal_good branch cm files (mkIdeal (some t)) t "roottree-0" rfl rfl hall
      obtain ⟨h2, h3⟩ := second (mkIdeal (some t)) t "roottree-0" rfl rfl hall
      exact ⟨outcomeOf t files [], _, outcomeOf t files [], h1, h2, h3⟩
    · have h1 := upsert_ideal_update branch cm files t hE
      have hall := applyEntries_entriesOf_lookup t files hnd
      obtain ⟨h2, h3⟩ := second
        { branchTree := some (applyEntries t (entriesOf t files)),
          headSha := "commit-1",
          trees := [("tree-0", applyEntries t (entriesOf t files)), ("roottree-0", t)],
          commits := [("commit-1", "tree-0"), ("head-0", "roottree-0")],
          counter := 2 }
        (applyEntries t (entriesOf t files)) "tree-0" rfl rfl hall
      exact ⟨outcomeOf t files [], _, outcomeOf _ files [], h1, h2, h3⟩

/-- Witness for C9 at a concrete input: one file, branch initially
absent. -/
theorem upsert_idempotent_second_all_skipped_witness :
    ∃ out1 s1 out2,
      upsertMultipleFilesSafe idealClient "main" [("a.txt", "hello")] "msg" (mkIdeal none)
        = ((out1, none), s1) ∧
      upsertMultipleFilesSafe idealClient "main" [("a.txt", "hello")] "msg" s1
        = ((out2, none), s1) ∧
      (∀ p c, (p, c) ∈ [("a.txt", "hello")] → out2.lookup p = some "skipped") :=
  upsert_idempotent_second_all_skipped "main" "msg" [("a.txt", "hello")] none (by decide)

/-- C2: in the update path, when the recheck `GetRef` returns a SHA
different from `originalHeadSHA`, `upsertMultipleFilesSafe` returns the
outcome map computed by the per-file loop together with the
concurrent-modification error, and the whole run issues no tree-creation,
commit-creation, ref-creation or ref-update call. -/
theorem upsert_concurrent_modification_aborts
    (script : Script) (branch cm : String) (files : List (String × String))
    (sha0 sha1 ts : String) (rrest : List RefResp) (crest : List GetCommitResp)
    (res : Outcome) (entries : List TreeEntry) (sc2 : Script) (d : List Call)
    (hr : script.getRefResps = RefResp.ok sha0 :: RefResp.ok sha1 :: rrest)
    (hc : script.getCommitResps = GetCommitResp.ok false false ts :: crest)
    (hloop : updateLoop scriptClient branch files [] []
        ({ script with getRefResps := RefResp.ok sha1 :: rrest, getCommitResps := crest }, [])
        = ((res, entries), (sc2, d)))
    (hne : entries ≠ [])
    (hsha : sha1 ≠ sha0) :
    ∃ l3, runUpsert script branch files cm
        = ((res, some UpsertErr.concurrentModification),
           ({ sc2 with getRefResps := rrest }, l3))
      ∧ l3.filter isMutationCall = [] := by
  have hgr2 : sc2.getRefResps = RefResp.ok sha1 :: rrest := by
    obtain ⟨g, b, hshape⟩ := updateLoop_script_shape branch files [] []
      { script with getRefResps := RefResp.ok sha1 :: rrest, getCommitResps := crest } []
    rw [hloop] at hshape
    simp only at hshape
    rw [hshape]
  have hcalls : ∀ x ∈ d, isReadOrBlobCall x = true := by
    have h := updateLoop_calls branch files [] []
      { script with getRefResps := RefResp.ok sha1 :: rrest, getCommitResps := crest }
    rw [hloop] at h
    exact h
  refine ⟨[Call.getRef ("refs/heads/" ++ branch), Call.getCommit sha0]
      ++ d ++ [Call.getRef ("refs/heads/" ++ branch)], ?_, ?_⟩
  · simp only [runUpsert, upsertMultipleFilesSafe, scriptClient_getRef,
      scriptClient_getCommit, hr, hc, popResp]
    simp only [List.nil_append]
    rw [updateLoop_log_shift, hloop]
    simp only [hne, if_neg, hgr2, popResp, hsha, ite_not]
    simp [hsha]
  · simp only [List.filter_append]
    have hd : d.filter isMutationCall = [] := by
      rw [List.filter_eq_nil_iff]
      intro a ha
      have := hcalls a ha
      cases a <;> simp_all [isReadOrBlobCall, isMutationCall]
    simp [hd, isMutationCall]

/-- Witness for C2 at a concrete input: one file needing a write, recheck
SHA `"h2"` differing from the original `"h1"`. -/
theorem upsert_concurrent_modification_aborts_witness :
    ∃ l3, runUpsert
        { getRefResps := [.ok "h1", .ok "h2"], getCommitResps := [.ok false false "t"],
          getContentsResps := [{ current := none, respStatus := some 404, isErr := true }],
          createBlobResps := [.ok "b"], createTreeResps := [.ok "x"],
          createCommitResps := [.ok "x"], createRefResps := [], updateRefResps := [.ok] }
        "main" [("a", "x")] "msg"
      = (([("a", "created")], some UpsertErr.concurrentModification),
         ({ getRefResps := [], getCommitResps := [], getContentsResps := [],
            createBlobResps := [], createTreeResps := [.ok "x"],
            createCommitResps := [.ok "x"], createRefResps := [], updateRefResps := [.ok] },
          l3))
      ∧ l3.filter isMutationCall = [] :=
  upsert_concurrent_modification_aborts
    { getRefResps := [.ok "h1", .ok "h2"], getCommitResps := [.ok false false "t"],
      getContentsResps := [{ current := none, respStatus := some 404, isErr := true }],
      createBlobResps := [.ok "b"], createTreeResps := [.ok "x"],
      createCommitResps := [.ok "x"], createRefResps := [], updateRefResps := [.ok] }
    "main" "msg" [("a", "x")] "h1" "h2" "t" [] []
    [("a", "created")] [{ path := "a", mode := "100644", type := "blob", sha := "b" }]
    { getRefResps := [.ok "h2"], getCommitResps := [], getContentsResps := [],
      createBlobResps := [], createTreeResps := [.ok "x"],
      createCommitResps := [.ok "x"], createRefResps := [], updateRefResps := [.ok] }
    [Call.getContents "a" "main", Call.createBlob "x"]
    rfl rfl rfl (by decide) (by decide)

/-- C3 (amended): in the update path, if the per-file loop produced no
TreeEntry, `upsertMultipleFilesSafe` returns the outcome map with a nil
error and the run issues no tree-creation, commit-creation, ref-creation
or ref-update call at all. -/
theorem upsert_no_entries_no_commit
    (script : Script) (branch cm : String) (files : List (String × String))
    (sha0 ts : String) (rrest : List RefResp) (crest : List GetCommitResp)
    (res : Outcome) (sc2 : Script) (d : List Call)
    (hr : script.getRefResps = RefResp.ok sha0 :: rrest)
    (hc : script.getCommitResps = GetCommitResp.ok false false ts :: crest)
    (hloop : updateLoop scriptClient branch files [] []
        ({ script with getRefResps := rrest, getCommitResps := crest }, [])
        = ((res, []), (sc2, d))) :
    ∃ l3, runUpsert script branch files cm = ((res, none), (sc2, l3))
      ∧ l3.filter isMutationCall = [] := by
  have hcalls : ∀ x ∈ d, isReadOrBlobCall x = true := by
    have h := updateLoop_calls branch files [] []
      { script with getRefResps := rrest, getCommitResps := crest }
    rw [hloop] at h
    exact h
  refine ⟨[Call.getRef ("refs/heads/" ++ branch), Call.getCommit sha0] ++ d, ?_, ?_⟩
  · simp only [runUpsert, upsertMultipleFilesSafe, scriptClient_getRef,
      scriptClient_getCommit, hr, hc, popResp]
    simp only [List.nil_append]
    rw [updateLoop_log_shift, hloop]
    simp
  · simp only [List.filter_append]
    have hd : d.filter isMutationCall = [] := by
      rw [List.filter_eq_nil_iff]
      intro a ha
      have := hcalls a ha
      cases a <;> simp_all [isReadOrBlobCall, isMutationCall]
    simp [hd, isMutationCall]

/-- Witness for the amended C3 at a concrete input: one file whose remote
content already equals the desired content, so the loop produces no
entry; the call succeeds with no mutating remote call. -/
theorem upsert_no_entries_no_commit_witness :
    ∃ l3, runUpsert
        { getRefResps := [.ok "h"], getCommitResps := [.ok false false "t"],
          getContentsResps := [{ current := some (.ok "x"), respStatus := some 200, isErr := false }],
          createBlobResps := [], createTreeResps := [], createCommitResps := [],
          createRefResps := [], updateRefResps := [] }
        "main" [("a", "x")] "msg"
      = (([("a", "skipped")], none),
         ({ getRefResps := [], getCommitResps := [], getContentsResps := [],
            createBlobResps := [], createTreeResps := [], createCommitResps := [],
            createRefResps := [], updateRefResps := [] }, l3))
      ∧ l3.filter isMutationCall = [] :=
  upsert_no_entries_no_commit
    { getRefResps := [.ok "h"], getCommitResps := [.ok false false "t"],
      getContentsResps := [{ current := some (.ok "x"), respStatus := some 200, isErr := false }],
      createBlobResps := [], createTreeResps := [], createCommitResps := [],
      createRefResps := [], updateRefResps := [] }
    "main" "msg" [("a", "x")] "h" "t" [] [] [("a", "skipped")]
    { getRefResps := [], getCommitResps := [], getContentsResps := [],
      createBlobResps := [], createTreeResps := [], createCommitResps := [],
      createRefResps := [], updateRefResps := [] }
    [Call.getContents "a" "main"]
    rfl rfl rfl

/-- Counterexample to C3 as stated: on the bootstrap path with an empty
FileSet, no TreeEntry exists, yet the code still creates a tree from zero
entries and then a commit on it (relying on the remote to reject empty
trees); here the scripted remote accepts them, the commit-creation call is
issued with zero entries behind it, and the run even succeeds. -/
theorem upsert_empty_bootstrap_creates_commit :
    (runUpsert
        { getRefResps := [.ghErr 404], getCommitResps := [], getContentsResps := [],
          createBlobResps := [], createTreeResps := [.ok "t0"],
          createCommitResps := [.ok "c0"], createRefResps := [.ok], updateRefResps := [] }
        "main" [] "msg").1.2 = none
    ∧ Call.createTree "" []
        ∈ (runUpsert
            { getRefResps := [.ghErr 404], getCommitResps := [], getContentsResps := [],
              createBlobResps := [], createTreeResps := [.ok "t0"],
              createCommitResps := [.ok "c0"], createRefResps := [.ok], updateRefResps := [] }
            "main" [] "msg").2.2
    ∧ Call.createCommit { message := "Initial commit", treeSha := "t0", parents := [] }
        ∈ (runUpsert
            { getRefResps := [.ghErr 404], getCommitResps := [], getContentsResps := [],
              createBlobResps := [], createTreeResps := [.ok "t0"],
              createCommitResps := [.ok "c0"], createRefResps := [.ok], updateRefResps := [] }
            "main" [] "msg").2.2 := by
  refine ⟨rfl, ?_, ?_⟩ <;> decide

/-- Characterization of a bootstrap loop run in which the first
`pre.length` blob creations succeed and the next one fails: the loop
aborts at file `(p, c)`, every earlier path is `created`, `(p, c)` is
`error`, and later paths keep whatever the incoming outcome map had. -/
theorem bootstrapLoop_fail (p c : String) (post : List (String × String))
    (brest : List ShaResp) :
    ∀ (pre : List (String × String)) (shas : List String) (result : Outcome)
      (entries : List TreeEntry) (sc : Script) (l : List Call),
      shas.length = pre.length →
      sc.createBlobResps = shas.map ShaResp.ok ++ ShaResp.err :: brest →
      ∃ out st,
        bootstrapLoop scriptClient (pre ++ (p, c) :: post) result entries (sc, l)
          = ((out, none), st) ∧
        ∀ q, out.lookup q
          = if q = p then some "error"
            else if q ∈ pre.map Prod.fst then some "created" else result.lookup q := by
  intro pre
  induction pre with
  | nil =>
    intro shas result entries sc l hlen hb
    have hs : shas = [] := List.length_eq_zero.mp hlen
    subst hs
    simp only [List.map_nil, List.nil_append] at hb
    refine ⟨setKV (setKV result p "created") p "error",
      ({ sc with createBlobResps := brest }, l ++ [Call.createBlob c]), ?_, ?_⟩
    · simp only [List.nil_append, bootstrapLoop, scriptClient_createBlob, hb, popResp]
    · intro q
      by_cases hq : q = p
      · subst hq
        rw [setKV_setKV, lookup_setKV_self]
        simp
      · rw [setKV_setKV, lookup_setKV_ne _ _ _ _ hq]
        simp [hq]
  | cons f pre ih =>
    intro shas result entries sc l hlen hb
    obtain ⟨q0, c0⟩ := f
    cases shas with
    | nil => simp at hlen
    | cons sha0 shas =>
      simp only [List.map_cons, List.cons_append] at hb
      obtain ⟨out, st, hrun, hlk⟩ := ih shas (setKV result q0 "created")
        (entries ++ [{ path := q0, mode := "100644", type := "blob", sha := sha0 }])
        { sc with createBlobResps := shas.map ShaResp.ok ++ ShaResp.err :: brest }
        (l ++ [Call.createBlob c0])
        (by simpa using hlen) rfl
      refine ⟨out, st, ?_, ?_⟩
      · rw [List.cons_append]
        simp only [bootstrapLoop, scriptClient_createBlob, hb, popResp]
        exact hrun
      · intro q
        rw [hlk q]
        by_cases hq : q = p
        · simp [hq]
        · simp only [hq, if_false, ite_false]
          by_cases hq0 : q = q0
          · subst hq0
            by_cases hmem : q ∈ pre.map Prod.fst <;>
              simp [hmem, lookup_setKV_self]
          · rw [lookup_setKV_ne _ _ _ _ hq0]
            by_cases hmem : q ∈ List.map Prod.fst pre <;> simp [List.mem_cons, hmem, hq0]

/-- C6: on the bootstrap path, a blob-creation failure aborts the whole
run immediately with a non-nil error; the failing path's outcome is
`error`, every path processed before it is `created`, and every
not-yet-processed path has no outcome entry at all. -/
theorem upsert_bootstrap_blob_failure
    (script : Script) (branch cm : String)
    (pre post : List (String × String)) (p c : String)
    (shas : List String) (code : Nat) (rrest : List RefResp) (brest : List ShaResp)
    (hcode : code = 404 ∨ code = 409)
    (hr : script.getRefResps = RefResp.ghErr code :: rrest)
    (hlen : shas.length = pre.length)
    (hb : script.createBlobResps = shas.map ShaResp.ok ++ ShaResp.err :: brest)
    (hnd : ((pre ++ (p, c) :: post).map Prod.fst).Nodup) :
    ∃ out st, runUpsert script branch (pre ++ (p, c) :: post) cm
        = ((out, some UpsertErr.createBlobInit), st)
      ∧ (∀ q ∈ pre.map Prod.fst, out.lookup q = some "created")
      ∧ out.lookup p = some "error"
      ∧ (∀ q ∈ post.map Prod.fst, out.lookup q = none) := by
  obtain ⟨out, st2, hrun, hlk⟩ := bootstrapLoop_fail p c post brest pre shas [] []
    { script with getRefResps := rrest } [] hlen hb
  have hdisj : ∀ q ∈ pre.map Prod.fst, q ≠ p ∧ True := by
    rw [List.map_append, List.map_cons] at hnd
    intro q hq
    refine ⟨?_, trivial⟩
    intro hqp
    subst hqp
    exact ((List.nodup_append.mp hnd).2.2 hq) (List.mem_cons_self _ _)
  have hpost : ∀ q ∈ post.map Prod.fst, q ≠ p ∧ q ∉ pre.map Prod.fst := by
    rw [List.map_append, List.map_cons] at hnd
    have hn := List.nodup_append.mp hnd
    intro q hq
    constructor
    · intro hqp
      subst hqp
      exact (List.nodup_cons.mp hn.2.1).1 hq
    · intro hqpre
      exact (hn.2.2 hqpre) (List.mem_cons_of_mem _ hq)
  refine ⟨out, (st2.1, Call.getRef ("refs/heads/" ++ branch) :: st2.2), ?_, ?_, ?_, ?_⟩
  · simp only [runUpsert, upsertMultipleFilesSafe, scriptClient_getRef, hr, popResp]
    rcases hcode with h | h <;> subst h <;>
      · simp only [List.nil_append]
        rw [bootstrapLoop_log_shift, hrun]
        simp
  · intro q hq
    rw [hlk q]
    simp [hq, (hdisj q hq).1]
  · rw [hlk p]
    simp
  · intro q hq
    rw [hlk q]
    simp [(hpost q hq).1, (hpost q hq).2]

/-- Witness for C6 at a concrete input: three files, the second blob
creation fails. -/
theorem upsert_bootstrap_blob_failure_witness :
    ∃ out st, runUpsert
        { getRefResps := [.ghErr 404], getCommitResps := [], getContentsResps := [],
          createBlobResps := [.ok "b1", .err], createTreeResps := [],
          createCommitResps := [], createRefResps := [], updateRefResps := [] }
        "main" ([("a", "x")] ++ ("b", "y") :: [("c", "z")]) "msg"
        = ((out, some UpsertErr.createBlobInit), st)
      ∧ (∀ q ∈ [("a", "x")].map Prod.fst, out.lookup q = some "created")
      ∧ out.lookup "b" = some "error"
      ∧ (∀ q ∈ [("c", "z")].map Prod.fst, out.lookup q = none) :=
  upsert_bootstrap_blob_failure
    { getRefResps := [.ghErr 404], getCommitResps := [], getContentsResps := [],
      createBlobResps := [.ok "b1", .err], createTreeResps := [],
      createCommitResps := [], createRefResps := [], updateRefResps := [] }
    "main" "msg" [("a", "x")] [("c", "z")] "b" "y" ["b1"] 404 [] []
    (Or.inl rfl) rfl rfl rfl (by decide)

/-! ## Outcome-map completeness invariants (for any client) -/

theorem processFile_lookup_isSome (c : Client σ) (branch p nc : String)
    (result : Outcome) (entries : List TreeEntry) (s : σ) (q : String)
    (h : (result.lookup q).isSome ∨ q = p) :
    (((processFile c branch p nc result entries s).1.1).lookup q).isSome := by
  have hq0 : ((setKV result p "error").lookup q).isSome := by
    rcases h with h | h
    · exact lookup_setKV_isSome _ _ _ _ h
    · subst h
      rw [lookup_setKV_self]
      rfl
  simp only [processFile]
  cases hcl : classifyContents (c.getContents p branch s).1 (setKV result p "error") p nc with
  | stop r =>
    have h3 : r = setKV result p "error"
        ∨ r = setKV (setKV result p "error") p "skipped" := by
      unfold classifyContents at hcl
      split at hcl
      · cases hcl
      · split at hcl
        · split at hcl
          · exact Or.inl (StepRes.stop.inj hcl).symm
          · split at hcl
            · exact Or.inr (StepRes.stop.inj hcl).symm
            · cases hcl
        · exact Or.inl (StepRes.stop.inj hcl).symm
        · cases hcl
    simp only [hcl]
    rcases h3 with h2 | h2 <;> subst h2
    · exact hq0
    · exact lookup_setKV_isSome _ _ _ _ hq0
  | write r =>
    have h3 : r = setKV result p "error"
        ∨ r = setKV (setKV result p "error") p "created"
        ∨ r = setKV (setKV result p "error") p "updated" := by
      unfold classifyContents at hcl
      split at hcl
      · exact Or.inr (Or.inl (StepRes.write.inj hcl).symm)
      · split at hcl
        · split at hcl
          · cases hcl
          · split at hcl
            · cases hcl
            · exact Or.inr (Or.inr (StepRes.write.inj hcl).symm)
        · cases hcl
        · exact Or.inl (StepRes.write.inj hcl).symm
    simp only [hcl]
    have hr : (r.lookup q).isSome := by
      rcases h3 with h2 | h2 | h2 <;> subst h2
      · exact hq0
      · exact lookup_setKV_isSome _ _ _ _ hq0
      · exact lookup_setKV_isSome _ _ _ _ hq0
    cases hb : (c.createBlob nc (c.getContents p branch s).2).1 <;>
      simp only [hb] <;> exact hr

theorem processFile_keys_nodup (c : Client σ) (branch p nc : String)
    (result : Outcome) (entries : List TreeEntry) (s : σ)
    (h : (result.map Prod.fst).Nodup) :
    (((processFile c branch p nc result entries s).1.1).map Prod.fst).Nodup := by
  have h0 : ((setKV result p "error").map Prod.fst).Nodup := keys_setKV_nodup _ _ _ h
  simp only [processFile]
  cases hcl : classifyContents (c.getContents p branch s).1 (setKV result p "error") p nc with
  | stop r =>
    have hr : (r.map Prod.fst).Nodup := by
      unfold classifyContents at hcl
      split at hcl
      · cases hcl
      · split at hcl
        · split at hcl
          · rw [← StepRes.stop.inj hcl]
            exact h0
          · split at hcl
            · rw [← StepRes.stop.inj hcl]
              exact keys_setKV_nodup _ _ _ h0
            · cases hcl
        · rw [← StepRes.stop.inj hcl]
          exact h0
        · cases hcl
    simp only [hcl]
    exact hr
  | write r =>
    have hr : (r.map Prod.fst).Nodup := by
      unfold classifyContents at hcl
      split at hcl
      · rw [← StepRes.write.inj hcl]
        exact keys_setKV_nodup _ _ _ h0
      · split at hcl
        · split at hcl
          · cases hcl
          · split at hcl
            · cases hcl
            · rw [← StepRes.write.inj hcl]
              exact keys_setKV_nodup _ _ _ h0
        · cases hcl
        · rw [← StepRes.write.inj hcl]
          exact h0
    simp only [hcl]
    cases hb : (c.createBlob nc (c.getContents p branch s).2).1 <;>
      simp only [hb] <;> exact hr

theorem updateLoop_lookup_isSome (c : Client σ) (branch : String)
    (files : List (String × String)) :
    ∀ (result : Outcome) (entries : List TreeEntry) (s : σ) (q : String),
      ((result.lookup q).isSome ∨ q ∈ files.map Prod.fst) →
      (((updateLoop c branch files result entries s).1.1).lookup q).isSome := by
  induction files with
  | nil =>
    intro result entries s q h
    rcases h with h | h
    · exact h
    · cases h
  | cons f rest ih =>
    intro result entries s q h
    obtain ⟨p, cnt⟩ := f
    show (((updateLoop c branch rest
        (processFile c branch p cnt result entries s).1.1
        (processFile c branch p cnt result entries s).1.2
        (processFile c branch p cnt result entries s).2).1.1).lookup q).isSome
    apply ih
    rcases h with h | h
    · exact Or.inl (processFile_lookup_isSome c branch p cnt result entries s q (Or.inl h))
    · rcases List.mem_cons.mp h with h1 | h1
      · exact Or.inl (processFile_lookup_isSome c branch p cnt result entries s q (Or.inr h1))
      · exact Or.inr h1

theorem updateLoop_keys_nodup (c : Client σ) (branch : String)
    (files : List (String × String)) :
    ∀ (result : Outcome) (entries : List TreeEntry) (s : σ),
      (result.map Prod.fst).Nodup →
      (((updateLoop c branch files result entries s).1.1).map Prod.fst).Nodup := by
  induction files with
  | nil => intro result entries s h; exact h
  | cons f rest ih =>
    intro result entries s h
    obtain ⟨p, cnt⟩ := f
    exact ih _ _ _ (processFile_keys_nodup c branch p cnt result entries s h)

theorem bootstrapLoop_complete_lookup (c : Client σ)
    (files : List (String × String)) :
    ∀ (result : Outcome) (entries : List TreeEntry) (s : σ) (es2 : List TreeEntry),
      (bootstrapLoop c files result entries s).1.2 = some es2 →
      ∀ q, ((result.lookup q).isSome ∨ q ∈ files.map Prod.fst) →
        (((bootstrapLoop c files result entries s).1.1).lookup q).isSome := by
  induction files with
  | nil =>
    intro result entries s es2 _ q h
    rcases h with h | h
    · exact h
    · cases h
  | cons f rest ih =>
    intro result entries s es2 hcompl q h
    obtain ⟨p, cnt⟩ := f
    unfold bootstrapLoop at hcompl ⊢
    cases hb : (c.createBlob cnt s).1 with
    | ok sha =>
      simp only [hb] at hcompl ⊢
      apply ih _ _ _ es2 hcompl
      rcases h with h | h
      · exact Or.inl (lookup_setKV_isSome _ _ _ _ h)
      · rcases List.mem_cons.mp h with h1 | h1
        · subst h1
          exact Or.inl (by rw [lookup_setKV_self]; rfl)
        · exact Or.inr h1
    | err => simp [hb] at hcompl

theorem bootstrapLoop_keys_nodup (c : Client σ)
    (files : List (String × String)) :
    ∀ (result : Outcome) (entries : List TreeEntry) (s : σ),
      (result.map Prod.fst).Nodup →
      (((bootstrapLoop c files result entries s).1.1).map Prod.fst).Nodup := by
  induction files with
  | nil => intro result entries s h; exact h
  | cons f rest ih =>
    intro result entries s h
    obtain ⟨p, cnt⟩ := f
    unfold bootstrapLoop
    cases hb : (c.createBlob cnt s).1 with
    | ok sha =>
      simp only [hb]
      exact ih _ _ _ (keys_setKV_nodup _ _ _ h)
    | err =>
      simp only [hb]
      exact keys_setKV_nodup _ _ _ (keys_setKV_nodup _ _ _ h)

/-- C4 (amended): whenever `upsertMultipleFilesSafe` returns a nil error
(against any remote client), the outcome map holds exactly one terminal
status for every path of the FileSet: every path has an entry, and the
map's keys are duplicate-free. -/
theorem upsert_success_one_status (c : Client σ) (branch cm : String)
    (files : List (String × String)) (s : σ) (out : Outcome) (s2 : σ)
    (h : upsertMultipleFilesSafe c branch files cm s = ((out, none), s2)) :
    (∀ p ∈ files.map Prod.fst, (out.lookup p).isSome)
    ∧ (out.map Prod.fst).Nodup := by
  have conclLoop : ∀ (s0 : σ),
      (∀ p ∈ files.map Prod.fst,
        (((updateLoop c branch files [] [] s0).1.1).lookup p).isSome)
      ∧ (((updateLoop c branch files [] [] s0).1.1).map Prod.fst).Nodup := by
    intro s0
    exact ⟨fun p hp => updateLoop_lookup_isSome c branch files [] [] s0 p (Or.inr hp),
      updateLoop_keys_nodup c branch files [] [] s0 (by simp)⟩
  simp only [upsertMultipleFilesSafe] at h
  cases h1 : (c.getRef ("refs/heads/" ++ branch) s).1 with
  | otherErr =>
    simp only [h1] at h
    simp at h
  | ghErr code =>
    simp only [h1] at h
    by_cases hc : code = 404 ∨ code = 409
    · rw [if_pos hc] at h
      cases h2 : (bootstrapLoop c files [] [] (c.getRef ("refs/heads/" ++ branch) s).2).1.2 with
      | none =>
        simp only [h2] at h
        simp at h
      | some es2 =>
        simp only [h2] at h
        cases h3 : (c.createTree "" es2
            (bootstrapLoop c files [] [] (c.getRef ("refs/heads/" ++ branch) s).2).2).1 with
        | err =>
          simp only [h3] at h
          simp at h
        | ok ts2 =>
          simp only [h3] at h
          cases h4 : (c.createCommit { message := "Initial commit", treeSha := ts2, parents := [] }
              (c.createTree "" es2
                (bootstrapLoop c files [] [] (c.getRef ("refs/heads/" ++ branch) s).2).2).2).1 with
          | err =>
            simp only [h4] at h
            simp at h
          | ok cs2 =>
            simp only [h4] at h
            cases h5 : (c.createRef ("refs/heads/" ++ branch) cs2
                (c.createCommit { message := "Initial commit", treeSha := ts2, parents := [] }
                  (c.createTree "" es2
                    (bootstrapLoop c files [] []
                      (c.getRef ("refs/heads/" ++ branch) s).2).2).2).2).1 with
            | err =>
              simp only [h5] at h
              simp at h
            | ok =>
              simp only [h5] at h
              have hout : (bootstrapLoop c files [] []
                  (c.getRef ("refs/heads/" ++ branch) s).2).1.1 = out := by
                have := congrArg (fun z => z.1.1) h
                simpa using this
              rw [← hout]
              exact ⟨fun p hp => bootstrapLoop_complete_lookup c files [] [] _ es2 h2 p (Or.inr hp),
                bootstrapLoop_keys_nodup c files [] [] _ (by simp)⟩
    · rw [if_neg hc] at h
      simp at h
  | ok sha0 =>
    simp only [h1] at h
    cases h2 : (c.getCommit sha0 (c.getRef ("refs/heads/" ++ branch) s).2).1 with
    | err =>
      simp only [h2] at h
      simp at h
    | ok bN cN ts =>
      simp only [h2] at h
      cases bN with
      | true => simp at h
      | false =>
        cases cN with
        | true => simp at h
        | false =>
          simp only [Bool.or_self, Bool.false_or, if_false, ite_false] at h
          by_cases hE : (updateLoop c branch files [] []
              (c.getCommit sha0 (c.getRef ("refs/heads/" ++ branch) s).2).2).1.2 = []
          · rw [if_pos hE] at h
            have hout : (updateLoop c branch files [] []
                (c.getCommit sha0 (c.getRef ("refs/heads/" ++ branch) s).2).2).1.1 = out := by
              have := congrArg (fun z => z.1.1) h
              simpa using this
            rw [← hout]
            exact conclLoop _
          · rw [if_neg hE] at h
            cases h3 : (c.getRef ("refs/heads/" ++ branch)
                (updateLoop c branch files [] []
                  (c.getCommit sha0 (c.getRef ("refs/heads/" ++ branch) s).2).2).2).1 with
            | ghErr code2 =>
              simp only [h3] at h
              simp at h
            | otherErr =>
              simp only [h3] at h
              simp at h
            | ok sha2 =>
              simp only [h3] at h
              by_cases hs2 : sha2 ≠ sha0
              · rw [if_pos hs2] at h
                simp at h
              · rw [if_neg hs2] at h
                cases h4 : (c.createTree ts
                    (updateLoop c branch files [] []
                      (c.getCommit sha0 (c.getRef ("refs/heads/" ++ branch) s).2).2).1.2
                    (c.getRef ("refs/heads/" ++ branch)
                      (updateLoop c branch files [] []
                        (c.getCommit sha0 (c.getRef ("refs/heads/" ++ branch) s).2).2).2).2).1 with
                | err =>
                  simp only [h4] at h
                  simp at h
                | ok nts =>
                  simp only [h4] at h
                  simp only [if_false, ite_false, Bool.false_eq_true] at h
                  cases h5 : (c.createCommit
                      { message := cm, treeSha := nts, parents := [sha0] }
                      (c.createTree ts
                        (updateLoop c branch files [] []
                          (c.getCommit sha0 (c.getRef ("refs/heads/" ++ branch) s).2).2).1.2
                        (c.getRef ("refs/heads/" ++ branch)
                          (updateLoop c branch files [] []
                            (c.getCommit sha0
                              (c.getRef ("refs/heads/" ++ branch) s).2).2).2).2).2).1 with
                  | err =>
                    simp only [h5] at h
                    simp at h
                  | ok cs2 =>
                    simp only [h5] at h
                    cases h6 : (c.updateRef ("refs/heads/" ++ branch) cs2 false
                        (c.createCommit
                          { message := cm, treeSha := nts, parents := [sha0] }
                          (c.createTree ts
                            (updateLoop c branch files [] []
                              (c.getCommit sha0 (c.getRef ("refs/heads/" ++ branch) s).2).2).1.2
                            (c.getRef ("refs/heads/" ++ branch)
                              (updateLoop c branch files [] []
                                (c.getCommit sha0
                                  (c.getRef ("refs/heads/" ++ branch) s).2).2).2).2).2).2).1 with
                    | err =>
                      simp only [h6] at h
                      simp at h
                    | ok =>
                      simp only [h6] at h
                      have hout : (updateLoop c branch files [] []
                          (c.getCommit sha0 (c.getRef ("refs/heads/" ++ branch) s).2).2).1.1
                          = out := by
                        have := congrArg (fun z => z.1.1) h
                        simpa using this
                      rw [← hout]
                      exact conclLoop _

/-- Witness for the amended C4 at a concrete successful run. -/
theorem upsert_success_one_status_witness :
    (∀ p ∈ [("a", "x")].map Prod.fst,
      (([("a", "skipped")] : Outcome).lookup p).isSome)
    ∧ (([("a", "skipped")] : Outcome).map Prod.fst).Nodup :=
  upsert_success_one_status scriptClient "main" "msg" [("a", "x")]
    ({ getRefResps := [.ok "h"], getCommitResps := [.ok false false "t"],
       getContentsResps := [{ current := some (.ok "x"), respStatus := some 200, isErr := false }],
       createBlobResps := [], createTreeResps := [], createCommitResps := [],
       createRefResps := [], updateRefResps := [] }, [])
    [("a", "skipped")]
    ({ getRefResps := [], getCommitResps := [], getContentsResps := [],
       createBlobResps := [], createTreeResps := [], createCommitResps := [],
       createRefResps := [], updateRefResps := [] },
     [Call.getRef "refs/heads/main", Call.getCommit "h", Call.getContents "a" "main"])
    rfl

/-- Counterexample to C4 as stated: on a failing call (bootstrap blob
failure at the second of three files), the returned outcome map has NO
entry at all for the not-yet-processed path `"c"`, so not every path in
the FileSet gets a terminal status when the call fails. -/
theorem upsert_failure_missing_outcome :
    (runUpsert
        { getRefResps := [.ghErr 404], getCommitResps := [], getContentsResps := [],
          createBlobResps := [.ok "b1", .err], createTreeResps := [],
          createCommitResps := [], createRefResps := [], updateRefResps := [] }
        "main" [("a", "x"), ("b", "y"), ("c", "z")] "msg").1
      = ([("a", "created"), ("b", "error")], some UpsertErr.createBlobInit)
    ∧ ((runUpsert
        { getRefResps := [.ghErr 404], getCommitResps := [], getContentsResps := [],
          createBlobResps := [.ok "b1", .err], createTreeResps := [],
          createCommitResps := [], createRefResps := [], updateRefResps := [] }
        "main" [("a", "x"), ("b", "y"), ("c", "z")] "msg").1.1).lookup "c" = none := by
  exact ⟨rfl, rfl⟩

/-- Counterexample to C1 as stated: when the content read reports 404 and
the subsequent blob creation fails, the path's outcome is `"created"`,
not `"error"` (the status assigned by the read is never reset), and the
whole call even succeeds because no TreeEntry was produced. -/
theorem upsert_blob_failure_keeps_created :
    (runUpsert
        { getRefResps := [.ok "h"], getCommitResps := [.ok false false "t"],
          getContentsResps := [{ current := none, respStatus := some 404, isErr := true }],
          createBlobResps := [.err], createTreeResps := [], createCommitResps := [],
          createRefResps := [], updateRefResps := [] }
        "main" [("a", "x")] "msg").1 = ([("a", "created")], none) := rfl

/-- C1 (amended): the per-file classification of the update loop.  A 404
read yields `"created"` and a blob creation is attempted (a TreeEntry is
appended exactly when it succeeds); a successful read with equal decoded
content yields `"skipped"` with no blob call; a successful read with
differing content yields `"updated"` and a blob attempt; a failed read or
a failed decode leaves the outcome `"error"` with no blob call; a blob
failure keeps the status assigned by the read (`"created"`/`"updated"`)
and appends no TreeEntry; in every case the loop continues with the next
path. -/
theorem processFile_classification
    (branch p nc : String) (result : Outcome) (entries : List TreeEntry)
    (sc : Script) (l : List Call) (gcr : GetContentsResp) (grest : List GetContentsResp)
    (hg : sc.getContentsResps = gcr :: grest) :
    (gcr.respStatus = some 404 →
      ((processFile scriptClient branch p nc result entries (sc, l)).1.1.lookup p
          = some "created"
       ∧ Call.createBlob nc ∈ (processFile scriptClient branch p nc result entries (sc, l)).2.2
       ∧ (∀ bsha brest2, sc.createBlobResps = ShaResp.ok bsha :: brest2 →
            (processFile scriptClient branch p nc result entries (sc, l)).1.2
              = entries ++ [mkEntry p bsha])
       ∧ (∀ brest2, sc.createBlobResps = ShaResp.err :: brest2 →
            (processFile scriptClient branch p nc result entries (sc, l)).1.2 = entries)))
    ∧ (gcr.respStatus ≠ some 404 → gcr.isErr = false → gcr.current = some (DecodeRes.ok nc) →
      ((processFile scriptClient branch p nc result entries (sc, l)).1.1.lookup p
          = some "skipped"
       ∧ (processFile scriptClient branch p nc result entries (sc, l)).1.2 = entries
       ∧ (processFile scriptClient branch p nc result entries (sc, l)).2.2
           = l ++ [Call.getContents p branch]))
    ∧ (∀ dec, gcr.respStatus ≠ some 404 → gcr.isErr = false →
      gcr.current = some (DecodeRes.ok dec) → dec ≠ nc →
      ((processFile scriptClient branch p nc result entries (sc, l)).1.1.lookup p
          = some "updated"
       ∧ Call.createBlob nc ∈ (processFile scriptClient branch p nc result entries (sc, l)).2.2
       ∧ (∀ brest2, sc.createBlobResps = ShaResp.err :: brest2 →
            (processFile scriptClient branch p nc result entries (sc, l)).1.2 = entries)))
    ∧ (gcr.respStatus ≠ some 404 → gcr.isErr = true →
      ((processFile scriptClient branch p nc result entries (sc, l)).1.1.lookup p
          = some "error"
       ∧ (processFile scriptClient branch p nc result entries (sc, l)).1.2 = entries
       ∧ (processFile scriptClient branch p nc result entries (sc, l)).2.2
           = l ++ [Call.getContents p branch]))
    ∧ (gcr.respStatus ≠ some 404 → gcr.isErr = false → gcr.current = some DecodeRes.err →
      ((processFile scriptClient branch p nc result entries (sc, l)).1.1.lookup p
          = some "error"
       ∧ (processFile scriptClient branch p nc result entries (sc, l)).1.2 = entries))
    ∧ (∀ rest, updateLoop scriptClient branch ((p, nc) :: rest) result entries (sc, l)
        = updateLoop scriptClient branch rest
            (processFile scriptClient branch p nc result entries (sc, l)).1.1
            (processFile scriptClient branch p nc result entries (sc, l)).1.2
            (processFile scriptClient branch p nc result entries (sc, l)).2) := by
  refine ⟨?_, ?_, ?_, ?_, ?_, fun rest => rfl⟩
  · intro h404
    refine ⟨?_, ?_, ?_, ?_⟩
    · cases hb : sc.createBlobResps with
      | nil =>
        simp [processFile, scriptClient_getContents, scriptClient_createBlob, hg,
          popResp, classifyContents, h404, hb, setKV_setKV, lookup_setKV_self]
      | cons b brest2 =>
        cases b <;>
          simp [processFile, scriptClient_getContents, scriptClient_createBlob, hg,
            popResp, classifyContents, h404, hb, setKV_setKV, lookup_setKV_self]
    · cases hb : sc.createBlobResps with
      | nil =>
        simp [processFile, scriptClient_getContents, scriptClient_createBlob, hg,
          popResp, classifyContents, h404, hb]
      | cons b brest2 =>
        cases b <;>
          simp [processFile, scriptClient_getContents, scriptClient_createBlob, hg,
            popResp, classifyContents, h404, hb]
    · intro bsha brest2 hbr
      simp [processFile, scriptClient_getContents, scriptClient_createBlob, hg,
        popResp, classifyContents, h404, hbr, mkEntry]
    · intro brest2 hbr
      simp [processFile, scriptClient_getContents, scriptClient_createBlob, hg,
        popResp, classifyContents, h404, hbr]
  · intro h404 hierr hcur
    simp [processFile, scriptClient_getContents, hg, popResp, classifyContents,
      h404, hierr, hcur, setKV_setKV, lookup_setKV_self]
  · intro dec h404 hierr hcur hne
    refine ⟨?_, ?_, ?_⟩
    · cases hb : sc.createBlobResps with
      | nil =>
        simp [processFile, scriptClient_getContents, scriptClient_createBlob, hg,
          popResp, classifyContents, h404, hierr, hcur, hne, hb,
          setKV_setKV, lookup_setKV_self]
      | cons b brest2 =>
        cases b <;>
          simp [processFile, scriptClient_getContents, scriptClient_createBlob, hg,
            popResp, classifyContents, h404, hierr, hcur, hne, hb,
            setKV_setKV, lookup_setKV_self]
    · cases hb : sc.createBlobResps with
      | nil =>
        simp [processFile, scriptClient_getContents, scriptClient_createBlob, hg,
          popResp, classifyContents, h404, hierr, hcur, hne, hb]
      | cons b brest2 =>
        cases b <;>
          simp [processFile, scriptClient_getContents, scriptClient_createBlob, hg,
            popResp, classifyContents, h404, hierr, hcur, hne, hb]
    · intro brest2 hbr
      simp [processFile, scriptClient_getContents, scriptClient_createBlob, hg,
        popResp, classifyContents, h404, hierr, hcur, hne, hbr]
  · intro h404 hierr
    simp [processFile, scriptClient_getContents, hg, popResp, classifyContents,
      h404, hierr, lookup_setKV_self]
  · intro h404 hierr hcur
    simp [processFile, scriptClient_getContents, hg, popResp, classifyContents,
      h404, hierr, hcur, lookup_setKV_self]

/-- Witness for the amended C1 at a concrete input: a 404 read followed by
a successful blob creation yields `"created"` and appends the entry. -/
theorem processFile_classification_witness :
    (processFile scriptClient "main" "a" "x" [] []
        ({ getRefResps := [], getCommitResps := [],
           getContentsResps := [{ current := none, respStatus := some 404, isErr := true }],
           createBlobResps := [.ok "b"], createTreeResps := [], createCommitResps := [],
           createRefResps := [], updateRefResps := [] }, [])).1.1.lookup "a" = some "created"
    ∧ (processFile scriptClient "main" "a" "x" [] []
        ({ getRefResps := [], getCommitResps := [],
           getContentsResps := [{ current := none, respStatus := some 404, isErr := true }],
           createBlobResps := [.ok "b"], createTreeResps := [], createCommitResps := [],
           createRefResps := [], updateRefResps := [] }, [])).1.2 = [] ++ [mkEntry "a" "b"] :=
  ⟨((processFile_classification "main" "a" "x" [] []
      { getRefResps := [], getCommitResps := [],
        getContentsResps := [{ current := none, respStatus := some 404, isErr := true }],
        createBlobResps := [.ok "b"], createTreeResps := [], createCommitResps := [],
        createRefResps := [], updateRefResps := [] }
      [] { current := none, respStatus := some 404, isErr := true } [] rfl).1 rfl).1,
   ((processFile_classification "main" "a" "x" [] []
      { getRefResps := [], getCommitResps := [],
        getContentsResps := [{ current := none, respStatus := some 404, isErr := true }],
        createBlobResps := [.ok "b"], createTreeResps := [], createCommitResps := [],
        createRefResps := [], updateRefResps := [] }
      [] { current := none, respStatus := some 404, isErr := true } [] rfl).1 rfl).2.2.1 "b" [] rfl⟩

/-- Counterexample to C5 as stated: when `GetContents` returns no error
but also no file content (as the underlying API does for a directory
path), the code falls through the `if`/`else if` chain with the outcome
left at `"error"`, still creates a blob and appends a TreeEntry for the
path, and the run commits it: the created tree contains an entry for a
path whose final status is `"error"`. -/
theorem upsert_nil_content_read_writes_entry :
    ((runUpsert
        { getRefResps := [.ok "h", .ok "h"], getCommitResps := [.ok false false "t"],
          getContentsResps := [{ current := none, respStatus := some 200, isErr := false }],
          createBlobResps := [.ok "b"], createTreeResps := [.ok "nt"],
          createCommitResps := [.ok "nc"], createRefResps := [], updateRefResps := [.ok] }
        "main" [("a", "x")] "msg").1.1).lookup "a" = some "error"
    ∧ Call.createTree "t" [mkEntry "a" "b"]
        ∈ (runUpsert
            { getRefResps := [.ok "h", .ok "h"], getCommitResps := [.ok false false "t"],
              getContentsResps := [{ current := none, respStatus := some 200, isErr := false }],
              createBlobResps := [.ok "b"], createTreeResps := [.ok "nt"],
              createCommitResps := [.ok "nc"], createRefResps := [], updateRefResps := [.ok] }
            "main" [("a", "x")] "msg").2.2 := by
  refine ⟨rfl, ?_⟩
  decide

/-- C5 (amended): in the update loop, `skipped` paths and paths whose
read or decode failed contribute no TreeEntry; an entry is appended for a
path exactly when blob creation succeeds after the read classified it as
`created`/`updated` — or after a successful read that carried no file
content, in which case the entry is appended although the outcome stays
`"error"`. -/
theorem processFile_entry_conditions
    (branch p nc : String) (result : Outcome) (entries : List TreeEntry)
    (sc : Script) (l : List Call) (gcr : GetContentsResp) (grest : List GetContentsResp)
    (hg : sc.getContentsResps = gcr :: grest) :
    (gcr.respStatus ≠ some 404 → gcr.isErr = false → gcr.current = some (DecodeRes.ok nc) →
      (processFile scriptClient branch p nc result entries (sc, l)).1.2 = entries)
    ∧ (gcr.respStatus ≠ some 404 → gcr.isErr = true →
      (processFile scriptClient branch p nc result entries (sc, l)).1.2 = entries)
    ∧ (gcr.respStatus ≠ some 404 → gcr.isErr = false → gcr.current = some DecodeRes.err →
      (processFile scriptClient branch p nc result entries (sc, l)).1.2 = entries)
    ∧ (∀ bsha brest2, gcr.respStatus ≠ some 404 → gcr.isErr = false → gcr.current = none →
      sc.createBlobResps = ShaResp.ok bsha :: brest2 →
      ((processFile scriptClient branch p nc result entries (sc, l)).1.2
          = entries ++ [mkEntry p bsha]
       ∧ (processFile scriptClient branch p nc result entries (sc, l)).1.1.lookup p
          = some "error"))
    ∧ (∀ bsha brest2, gcr.respStatus = some 404 →
      sc.createBlobResps = ShaResp.ok bsha :: brest2 →
      ((processFile scriptClient branch p nc result entries (sc, l)).1.2
          = entries ++ [mkEntry p bsha]
       ∧ (processFile scriptClient branch p nc result entries (sc, l)).1.1.lookup p
          = some "created"))
    ∧ (∀ dec bsha brest2, gcr.respStatus ≠ some 404 → gcr.isErr = false →
      gcr.current = some (DecodeRes.ok dec) → dec ≠ nc →
      sc.createBlobResps = ShaResp.ok bsha :: brest2 →
      ((processFile scriptClient branch p nc result entries (sc, l)).1.2
          = entries ++ [mkEntry p bsha]
       ∧ (processFile scriptClient branch p nc result entries (sc, l)).1.1.lookup p
          = some "updated"))
    ∧ (∀ brest2, sc.createBlobResps = ShaResp.err :: brest2 →
      (processFile scriptClient branch p nc result entries (sc, l)).1.2 = entries)
    ∧ (sc.createBlobResps = [] →
      (processFile scriptClient branch p nc result entries (sc, l)).1.2 = entries) := by
  refine ⟨?_, ?_, ?_, ?_, ?_, ?_, ?_, ?_⟩
  · intro h404 hierr hcur
    simp [processFile, scriptClient_getContents, hg, popResp, classifyContents,
      h404, hierr, hcur]
  · intro h404 hierr
    simp [processFile, scriptClient_getContents, hg, popResp, classifyContents,
      h404, hierr]
  · intro h404 hierr hcur
    simp [processFile, scriptClient_getContents, hg, popResp, classifyContents,
      h404, hierr, hcur]
  · intro bsha brest2 h404 hierr hcur hbr
    constructor
    · simp [processFile, scriptClient_getContents, scriptClient_createBlob, hg,
        popResp, classifyContents, h404, hierr, hcur, hbr, mkEntry]
    · simp [processFile, scriptClient_getContents, scriptClient_createBlob, hg,
        popResp, classifyContents, h404, hierr, hcur, hbr, lookup_setKV_self]
  · intro bsha brest2 h404 hbr
    constructor
    · simp [processFile, scriptClient_getContents, scriptClient_createBlob, hg,
        popResp, classifyContents, h404, hbr, mkEntry]
    · simp [processFile, scriptClient_getContents, scriptClient_createBlob, hg,
        popResp, classifyContents, h404, hbr, setKV_setKV, lookup_setKV_self]
  · intro dec bsha brest2 h404 hierr hcur hne hbr
    constructor
    · simp [processFile, scriptClient_getContents, scriptClient_createBlob, hg,
        popResp, classifyContents, h404, hierr, hcur, hne, hbr, mkEntry]
    · simp [processFile, scriptClient_getContents, scriptClient_createBlob, hg,
        popResp, classifyContents, h404, hierr, hcur, hne, hbr,
        setKV_setKV, lookup_setKV_self]
  · intro brest2 hbr
    simp only [processFile, scriptClient_getContents, hg, popResp]
    cases hcl : classifyContents gcr (setKV result p "error") p nc with
    | stop r => simp [hcl]
    | write r => simp [hcl, scriptClient_createBlob, hbr, popResp]
  · intro hbr
    simp only [processFile, scriptClient_getContents, hg, popResp]
    cases hcl : classifyContents gcr (setKV result p "error") p nc with
    | stop r => simp [hcl]
    | write r => simp [hcl, scriptClient_createBlob, hbr, popResp]

/-- Witness for the amended C5 at a concrete input: the nil-content
successful read with a succeeding blob creation. -/
theorem processFile_entry_conditions_witness :
    (processFile scriptClient "main" "a" "x" [] []
        ({ getRefResps := [], getCommitResps := [],
           getContentsResps := [{ current := none, respStatus := some 200, isErr := false }],
           createBlobResps := [.ok "b"], createTreeResps := [], createCommitResps := [],
           createRefResps := [], updateRefResps := [] }, [])).1.2 = [] ++ [mkEntry "a" "b"]
    ∧ (processFile scriptClient "main" "a" "x" [] []
        ({ getRefResps := [], getCommitResps := [],
           getContentsResps := [{ current := none, respStatus := some 200, isErr := false }],
           createBlobResps := [.ok "b"], createTreeResps := [], createCommitResps := [],
           createRefResps := [], updateRefResps := [] }, [])).1.1.lookup "a" = some "error" :=
  (processFile_entry_conditions "main" "a" "x" [] []
    { getRefResps := [], getCommitResps := [],
      getContentsResps := [{ current := none, respStatus := some 200, isErr := false }],
      createBlobResps := [.ok "b"], createTreeResps := [], createCommitResps := [],
      createRefResps := [], updateRefResps := [] }
    [] { current := none, respStatus := some 200, isErr := false } [] rfl).2.2.2.1
    "b" [] (by decide) rfl rfl rfl

theorem not_commit_of_readOrBlob (data : CommitData) (d : List Call)
    (h : ∀ x ∈ d, isReadOrBlobCall x = true) : Call.createCommit data ∉ d := by
  intro hx
  have h2 := h _ hx
  simp [isReadOrBlobCall] at h2

/-- C7: every commit-creation call a run of `upsertMultipleFilesSafe`
issues has either the bootstrap shape — message `"Initial commit"` and
zero parents, on the branch-absent path — or the update shape — the
caller-supplied commit message and exactly one parent, the
`originalHeadSHA` read at the start. -/
theorem upsert_commit_message_parents (script : Script) (branch cm : String)
    (files : List (String × String)) (data : CommitData)
    (hmem : Call.createCommit data ∈ (runUpsert script branch files cm).2.2) :
    (∃ code rrest, script.getRefResps = RefResp.ghErr code :: rrest
        ∧ (code = 404 ∨ code = 409)
        ∧ data.message = "Initial commit" ∧ data.parents = [])
    ∨ (∃ sha0 rrest, script.getRefResps = RefResp.ok sha0 :: rrest
        ∧ data.message = cm ∧ data.parents = [sha0]) := by
  simp only [runUpsert, upsertMultipleFilesSafe, scriptClient_getRef] at hmem
  cases hr : script.getRefResps with
  | nil =>
    rw [hr] at hmem
    simp [popResp] at hmem
  | cons r rrest =>
    rw [hr] at hmem
    simp only [popResp] at hmem
    cases r with
    | otherErr => simp at hmem
    | ghErr code =>
      simp only [] at hmem
      by_cases hc : code = 404 ∨ code = 409
      · rw [if_pos hc] at hmem
        refine Or.inl ⟨code, rrest, rfl, hc, ?_⟩
        rw [bootstrapLoop_log_shift] at hmem
        simp only [List.nil_append] at hmem
        have hdcalls := bootstrapLoop_calls files [] []
          { script with getRefResps := rrest }
        set run := bootstrapLoop scriptClient files [] []
          ({ script with getRefResps := rrest }, []) with hrun
        cases hloop2 : run.1.2 with
        | none =>
          simp only [hloop2] at hmem
          simp at hmem
          exact absurd hmem (not_commit_of_readOrBlob data _ hdcalls)
        | some es2 =>
          simp only [hloop2, scriptClient_createTree, scriptClient_createCommit,
            scriptClient_createRef] at hmem
          cases htr : (popResp run.2.1.createTreeResps ShaResp.err).1 with
          | err =>
            simp only [htr] at hmem
            simp at hmem
            exact absurd hmem (not_commit_of_readOrBlob data _ hdcalls)
          | ok ts2 =>
            simp only [htr] at hmem
            cases hcc : (popResp run.2.1.createCommitResps ShaResp.err).1 with
            | err =>
              simp only [hcc] at hmem
              simp at hmem
              rcases hmem with h2 | h2
              · exact absurd h2 (not_commit_of_readOrBlob data _ hdcalls)
              · rw [h2]
                exact ⟨rfl, rfl⟩
            | ok cs2 =>
              simp only [hcc] at hmem
              cases hcr : (popResp run.2.1.createRefResps UnitResp.err).1 with
              | err =>
                simp only [hcr] at hmem
                simp at hmem
                rcases hmem with h2 | h2
                · exact absurd h2 (not_commit_of_readOrBlob data _ hdcalls)
                · rw [h2]
                  exact ⟨rfl, rfl⟩
              | ok =>
                simp only [hcr] at hmem
                simp at hmem
                rcases hmem with h2 | h2
                · exact absurd h2 (not_commit_of_readOrBlob data _ hdcalls)
                · rw [h2]
                  exact ⟨rfl, rfl⟩
      · rw [if_neg hc] at hmem
        simp at hmem
    | ok sha0 =>
      simp only [] at hmem
      refine Or.inr ⟨sha0, rrest, rfl, ?_⟩
      cases hgc : (popResp script.getCommitResps GetCommitResp.err).1 with
      | err =>
        simp only [scriptClient_getCommit, hgc] at hmem
        simp at hmem
      | ok bN cN ts =>
        simp only [scriptClient_getCommit, hgc] at hmem
        cases bN with
        | true => simp at hmem
        | false =>
          cases cN with
          | true => simp at hmem
          | false =>
            simp only [Bool.or_self] at hmem
            rw [if_neg Bool.false_ne_true] at hmem
            rw [updateLoop_log_shift] at hmem
            simp only [List.nil_append] at hmem
            have hdcalls := updateLoop_calls branch files [] []
              { { script with getRefResps := rrest } with
                  getCommitResps := (popResp script.getCommitResps GetCommitResp.err).2 }
            set run := updateLoop scriptClient branch files [] []
              ({ { script with getRefResps := rrest } with
                  getCommitResps := (popResp script.getCommitResps GetCommitResp.err).2 }, [])
              with hrun
            by_cases hE : run.1.2 = []
            · rw [if_pos hE] at hmem
              simp at hmem
              exact absurd hmem (not_commit_of_readOrBlob data _ hdcalls)
            · rw [if_neg hE] at hmem
              cases hrc : run.2.1.getRefResps with
              | nil =>
                simp only [hrc, popResp] at hmem
                simp at hmem
                exact absurd hmem (not_commit_of_readOrBlob data _ hdcalls)
              | cons rr rrest2 =>
                cases rr with
                | ghErr code2 =>
                  simp only [hrc, popResp] at hmem
                  simp at hmem
                  exact absurd hmem (not_commit_of_readOrBlob data _ hdcalls)
                | otherErr =>
                  simp only [hrc, popResp] at hmem
                  simp at hmem
                  exact absurd hmem (not_commit_of_readOrBlob data _ hdcalls)
                | ok sha2 =>
                  simp only [hrc, popResp] at hmem
                  by_cases hs2 : sha2 ≠ sha0
                  · rw [if_pos hs2] at hmem
                    simp at hmem
                    exact absurd hmem (not_commit_of_readOrBlob data _ hdcalls)
                  · rw [if_neg hs2] at hmem
                    cases htr : (popResp run.2.1.createTreeResps ShaResp.err).1 with
                    | err =>
                      simp only [scriptClient_createTree, htr] at hmem
                      simp at hmem
                      exact absurd hmem (not_commit_of_readOrBlob data _ hdcalls)
                    | ok nts =>
                      simp only [scriptClient_createTree, scriptClient_createCommit,
                        scriptClient_updateRef, htr] at hmem
                      cases hcc : (popResp run.2.1.createCommitResps ShaResp.err).1 with
                      | err =>
                        simp only [hcc] at hmem
                        simp at hmem
                        rcases hmem with h2 | h2
                        · exact absurd h2 (not_commit_of_readOrBlob data _ hdcalls)
                        · rw [h2]
                          exact ⟨rfl, rfl⟩
                      | ok cs2 =>
                        simp only [hcc] at hmem
                        cases hur : (popResp run.2.1.updateRefResps UnitResp.err).1 with
                        | err =>
                          simp only [hur] at hmem
                          simp at hmem
                          rcases hmem with h2 | h2
                          · exact absurd h2 (not_commit_of_readOrBlob data _ hdcalls)
                          · rw [h2]
                            exact ⟨rfl, rfl⟩
                        | ok =>
                          simp only [hur] at hmem
                          simp at hmem
                          rcases hmem with h2 | h2
                          · exact absurd h2 (not_commit_of_readOrBlob data _ hdcalls)
                          · rw [h2]
                            exact ⟨rfl, rfl⟩

/-- Witness for C7 at a concrete input: an update-path run whose commit
call carries the caller's message and the original head SHA as single
parent. -/
theorem upsert_commit_message_parents_witness :
    (∃ code rrest,
        ({ getRefResps := [.ok "h", .ok "h"], getCommitResps := [.ok false false "t"],
           getContentsResps := [{ current := none, respStatus := some 404, isErr := true }],
           createBlobResps := [.ok "b"], createTreeResps := [.ok "nt"],
           createCommitResps := [.ok "nc"], createRefResps := [],
           updateRefResps := [.ok] } : Script).getRefResps = RefResp.ghErr code :: rrest
        ∧ (code = 404 ∨ code = 409)
        ∧ (CommitData.mk "msg" "nt" ["h"]).message = "Initial commit"
        ∧ (CommitData.mk "msg" "nt" ["h"]).parents = [])
    ∨ (∃ sha0 rrest,
        ({ getRefResps := [.ok "h", .ok "h"], getCommitResps := [.ok false false "t"],
           getContentsResps := [{ current := none, respStatus := some 404, isErr := true }],
           createBlobResps := [.ok "b"], createTreeResps := [.ok "nt"],
           createCommitResps := [.ok "nc"], createRefResps := [],
           updateRefResps := [.ok] } : Script).getRefResps = RefResp.ok sha0 :: rrest
        ∧ (CommitData.mk "msg" "nt" ["h"]).message = "msg"
        ∧ (CommitData.mk "msg" "nt" ["h"]).parents = [sha0]) :=
  upsert_commit_message_parents
    { getRefResps := [.ok "h", .ok "h"], getCommitResps := [.ok false false "t"],
      getContentsResps := [{ current := none, respStatus := some 404, isErr := true }],
      createBlobResps := [.ok "b"], createTreeResps := [.ok "nt"],
      createCommitResps := [.ok "nc"], createRefResps := [], updateRefResps := [.ok] }
    "main" "msg" [("a", "x")] (CommitData.mk "msg" "nt" ["h"]) (by decide)

theorem repoScriptClient_get (owner name : String) (s : RepoScriptState) :
    repoScriptClient.get owner name s
      = ((popResp s.1.getResps (none, true)).1,
         ({ s.1 with getResps := (popResp s.1.getResps (none, true)).2 },
          s.2 ++ [Call.getRepository owner name])) := rfl

theorem repoScriptClient_create (org : String) (spec : RepoSpec) (s : RepoScriptState) :
    repoScriptClient.create org spec s
      = ((popResp s.1.createResps UnitResp.err).1,
         ({ s.1 with createResps := (popResp s.1.createResps UnitResp.err).2 },
          s.2 ++ [Call.createRepository org spec])) := rfl

/-- Counterexample to C8 as stated: when the repository lookup fails with
an error that carries no HTTP response at all (`resp == nil`, e.g. a
transport error), `createRepo` does NOT propagate the error — the
`resp != nil && resp.StatusCode != 404` guard is skipped — and it falls
through to the creation call, which here succeeds. -/
theorem createRepo_nil_response_error_creates :
    runCreateRepo { getResps := [(none, true)], createResps := [.ok] } "own" "rep"
      = (none,
         ({ getResps := [], createResps := [] },
          [Call.getRepository "own" "rep",
           Call.createRepository ""
             { name := "rep", isPrivate := false, autoInit := true,
               description := "Auto-created with Go script" }])) := rfl

/-- C8 (amended): `createRepo` succeeds as a no-op when the lookup
returns no error; a lookup failure carrying an HTTP response with a
status other than 404 propagates the error with no creation attempt; a
lookup failure whose response is 404 — or whose response is nil — falls
through to the creation call (empty organisation, hardcoded settings). -/
theorem createRepo_cases (script : RepoScript) (owner name : String) :
    (∀ st rest, script.getResps = (st, false) :: rest →
      ((runCreateRepo script owner name).1 = none
       ∧ ∀ org spec, Call.createRepository org spec ∉ (runCreateRepo script owner name).2.2))
    ∧ (∀ code rest, script.getResps = (some code, true) :: rest → code ≠ 404 →
      ((runCreateRepo script owner name).1 = some CreateRepoErr.checkFailed
       ∧ ∀ org spec, Call.createRepository org spec ∉ (runCreateRepo script owner name).2.2))
    ∧ (∀ rest, (script.getResps = (some 404, true) :: rest
          ∨ script.getResps = (none, true) :: rest) →
      Call.createRepository ""
          { name := name, isPrivate := false, autoInit := true,
            description := "Auto-created with Go script" }
        ∈ (runCreateRepo script owner name).2.2) := by
  refine ⟨?_, ?_, ?_⟩
  · intro st rest hg
    constructor
    · simp [runCreateRepo, createRepo, repoScriptClient_get, hg, popResp]
    · intro org spec
      simp [runCreateRepo, createRepo, repoScriptClient_get, hg, popResp]
  · intro code rest hg hcode
    constructor
    · simp [runCreateRepo, createRepo, repoScriptClient_get, hg, popResp, hcode]
    · intro org spec
      simp [runCreateRepo, createRepo, repoScriptClient_get, hg, popResp, hcode]
  · intro rest hg
    rcases hg with hg | hg <;>
      cases hcrl : script.createResps with
      | nil =>
        simp [runCreateRepo, createRepo, repoScriptClient_get, repoScriptClient_create,
          hg, hcrl, popResp]
      | cons cr crest =>
        cases cr <;>
          simp [runCreateRepo, createRepo, repoScriptClient_get, repoScriptClient_create,
            hg, hcrl, popResp]

/-- Witness for the amended C8 at concrete inputs: a found repository is
a no-op; a 500-status failure propagates without creation; a 404 leads to
the creation call. -/
theorem createRepo_cases_witness :
    ((runCreateRepo { getResps := [(some 200, false)], createResps := [] } "o" "r").1 = none
     ∧ ∀ org spec, Call.createRepository org spec
         ∉ (runCreateRepo { getResps := [(some 200, false)], createResps := [] } "o" "r").2.2)
    ∧ ((runCreateRepo { getResps := [(some 500, true)], createResps := [] } "o" "r").1
         = some CreateRepoErr.checkFailed
     ∧ ∀ org spec, Call.createRepository org spec
         ∉ (runCreateRepo { getResps := [(some 500, true)], createResps := [] } "o" "r").2.2)
    ∧ Call.createRepository ""
        { name := "r", isPrivate := false, autoInit := true,
          description := "Auto-created with Go script" }
      ∈ (runCreateRepo { getResps := [(some 404, true)], createResps := [.ok] } "o" "r").2.2 :=
  ⟨(createRepo_cases { getResps := [(some 200, false)], createResps := [] } "o" "r").1
      (some 200) [] rfl,
   (createRepo_cases { getResps := [(some 500, true)], createResps := [] } "o" "r").2.1
      500 [] rfl (by decide),
   (createRepo_cases { getResps := [(some 404, true)], createResps := [.ok] } "o" "r").2.2
      [] (Or.inl rfl)⟩

/-- C10: every repository-creation call `createRepo` ever issues uses the
empty organisation string (so the repository is created under the
authenticated token's account) and exactly the hardcoded spec (`Name` =
the requested name, `Private` = false, `AutoInit` = true, description
"Auto-created with Go script"); the `owner` argument is used only in the
existence-check call. -/
theorem createRepo_create_args (script : RepoScript) (owner name : String) :
    (∀ org spec, Call.createRepository org spec ∈ (runCreateRepo script owner name).2.2 →
      org = "" ∧ spec = { name := name, isPrivate := false, autoInit := true,
                          description := "Auto-created with Go script" })
    ∧ (∀ o n, Call.getRepository o n ∈ (runCreateRepo script owner name).2.2 →
      o = owner ∧ n = name) := by
  cases hg : script.getResps with
  | nil =>
    cases hcrl : script.createResps with
    | nil =>
      constructor <;>
        intro a b hmem <;>
          simp [runCreateRepo, createRepo, repoScriptClient_get, repoScriptClient_create,
            hg, hcrl, popResp] at hmem <;>
          simp [hmem]
    | cons cr crest =>
      cases cr <;>
        (constructor <;>
          intro a b hmem <;>
            simp [runCreateRepo, createRepo, repoScriptClient_get, repoScriptClient_create,
              hg, hcrl, popResp] at hmem <;>
            simp [hmem])
  | cons g rest =>
    obtain ⟨st, isErr⟩ := g
    cases isErr with
    | false =>
      constructor <;>
        intro a b hmem <;>
          simp [runCreateRepo, createRepo, repoScriptClient_get, hg, popResp] at hmem <;>
          simp [hmem]
    | true =>
      cases st with
      | none =>
        cases hcrl : script.createResps with
        | nil =>
          constructor <;>
            intro a b hmem <;>
              simp [runCreateRepo, createRepo, repoScriptClient_get, repoScriptClient_create,
                hg, hcrl, popResp] at hmem <;>
              simp [hmem]
        | cons cr crest =>
          cases cr <;>
            (constructor <;>
              intro a b hmem <;>
                simp [runCreateRepo, createRepo, repoScriptClient_get, repoScriptClient_create,
                  hg, hcrl, popResp] at hmem <;>
                simp [hmem])
      | some code =>
        by_cases hcode : code = 404
        · subst hcode
          cases hcrl : script.createResps with
          | nil =>
            constructor <;>
              intro a b hmem <;>
                simp [runCreateRepo, createRepo, repoScriptClient_get, repoScriptClient_create,
                  hg, hcrl, popResp] at hmem <;>
                simp [hmem]
          | cons cr crest =>
            cases cr <;>
              (constructor <;>
                intro a b hmem <;>
                  simp [runCreateRepo, createRepo, repoScriptClient_get, repoScriptClient_create,
                    hg, hcrl, popResp] at hmem <;>
                  simp [hmem])
        · constructor <;>
            intro a b hmem <;>
              simp [runCreateRepo, createRepo, repoScriptClient_get, hg, popResp, hcode] at hmem <;>
              simp [hmem]

/-- Witness for C10 at a concrete input: a 404 lookup followed by
creation. -/
theorem createRepo_create_args_witness :
    ("" : String) = ""
    ∧ ({ name := "r", isPrivate := false, autoInit := true,
         description := "Auto-created with Go script" } : RepoSpec)
      = { name := "r", isPrivate := false, autoInit := true,
          description := "Auto-created with Go script" } :=
  (createRepo_create_args { getResps := [(some 404, true)], createResps := [.ok] } "o" "r").1
    "" { name := "r", isPrivate := false, autoInit := true,
         description := "Auto-created with Go script" } (by decide)

end GitUpsert
